import Mathlib

/-!
Verification of the Guacamole tunnel layer (`Tunnel.js`).

A shallow embedding of `src/main/webapp/modules/Tunnel.js` and proofs about
it.  JavaScript strings are modelled as `List Char` (a sequence of code
units); JavaScript numbers that can be `undefined` or `NaN` are modelled by
`JNum`; the string primitives `substring`, `indexOf` and `parseInt` are
modelled with their ECMAScript coercion behaviour (NaN coerces to 0 as an
index, an undefined end index means "to the end of the string", `substring`
swaps its bounds, `parseInt` takes the maximal leading digit run).
-/

/-- A JavaScript string: a list of UTF-16 code units.  Both the encoder
(`string.length`) and the decoders (`substring` positions) measure in the
same units, so the abstract unit choice is consistent. -/
abbrev JStr := List Char

/-- A decoded instruction: opcode and argument list. -/
abbrev Instr := JStr × List JStr

/-- A JavaScript numeric value as used by the parser variables: either
`undefined` (a `var` never assigned), `NaN`, or an integer. -/
inductive JNum where
  | undef : JNum
  | nan   : JNum
  | int   : Int → JNum
deriving DecidableEq, Repr

namespace JNum

/-- JavaScript addition on such values: `undefined + n` and `NaN + n` are
`NaN`. -/
def jAdd : JNum → JNum → JNum
  | int a, int b => int (a + b)
  | _, _ => nan

/-- JavaScript `<` on such values: any comparison with `NaN` (or
`undefined`, which coerces to `NaN`) is false. -/
def jLt : JNum → JNum → Bool
  | int a, int b => a < b
  | _, _ => false

/-- JavaScript `>=` on such values: any comparison with `NaN`/`undefined`
is false. -/
def jGe : JNum → JNum → Bool
  | int a, int b => b ≤ a
  | _, _ => false

/-- `jAdd` on two integer values. -/
theorem jAdd_int (a b : Int) : (JNum.int a).jAdd (.int b) = .int (a + b) := rfl

end JNum

/-- Coercion of a start index for `String.prototype.substring`/`indexOf`:
`undefined` and `NaN` coerce to `0`, negative values clamp to `0`, values
beyond the length clamp to the length. -/
def jStartClamp (len : Nat) : JNum → Nat
  | .undef => 0
  | .nan => 0
  | .int i => if i < 0 then 0 else min i.toNat len

/-- Coercion of the end index for `String.prototype.substring`: an
`undefined` end index means the string length, `NaN` coerces to `0`,
otherwise clamp into `[0, len]`. -/
def jEndClamp (len : Nat) : JNum → Nat
  | .undef => len
  | .nan => 0
  | .int i => if i < 0 then 0 else min i.toNat len

/-- `s.substring(a, b)` with full ECMAScript coercions, including the swap
of the two bounds when `a > b`. -/
def jSubstring (s : JStr) (a b : JNum) : JStr :=
  (s.take (max (jStartClamp s.length a) (jEndClamp s.length b))).drop
    (min (jStartClamp s.length a) (jEndClamp s.length b))

/-- Index of the first occurrence of `c` in `l`, if any. -/
def charIdxFrom (c : Char) : List Char → Option Nat
  | [] => none
  | x :: xs => if x = c then some 0 else (charIdxFrom c xs).map (· + 1)

/-- `s.indexOf(c, pos)`: `-1` when absent.  The position coerces like a
start index (NaN → 0, clamped into `[0, len]`). -/
def jIndexOf (s : JStr) (c : Char) (pos : JNum) : Int :=
  match charIdxFrom c (s.drop (jStartClamp s.length pos)) with
  | some i => ((jStartClamp s.length pos + i : Nat) : Int)
  | none => -1

/-- Numeric value of a decimal digit character. -/
def digitVal (c : Char) : Nat := c.toNat - 48

/-- Value of a decimal digit string (most significant digit first). -/
def digitsToNat (l : JStr) : Nat :=
  l.foldl (fun a c => a * 10 + digitVal c) 0

/-- The decimal digit character for `n % 10`-style values below 10. -/
def digitChar : Nat → Char
  | 0 => '0' | 1 => '1' | 2 => '2' | 3 => '3' | 4 => '4'
  | 5 => '5' | 6 => '6' | 7 => '7' | 8 => '8' | _ => '9'

/-- Structural worker for the decimal rendering: the fuel strictly
exceeds the number and so never runs out. -/
def natToDigitsAux : Nat → Nat → JStr
  | 0, _ => []
  | fuel + 1, n =>
    if n < 10 then [digitChar n]
    else natToDigitsAux fuel (n / 10) ++ [digitChar (n % 10)]

/-- Decimal rendering of a natural number (the JavaScript
number-to-string conversion used by `string.length + "."`). -/
def natToDigits (n : Nat) : JStr := natToDigitsAux (n + 1) n

/-- Parse a maximal leading digit run (the tail of `parseInt`). -/
def jParseDigits (r : JStr) (neg : Bool) : JNum :=
  let d := r.takeWhile Char.isDigit
  if d.isEmpty then .nan
  else .int (if neg then -(digitsToNat d : Int) else (digitsToNat d : Int))

/-- `parseInt(s)` in base 10: skip leading spaces, optional sign, then the
maximal digit run; `NaN` when no digits follow. -/
def jParseInt (s : JStr) : JNum :=
  let t := s.dropWhile (· = ' ')
  match t with
  | [] => .nan
  | c :: r =>
    if c = '-' then jParseDigits r true
    else if c = '+' then jParseDigits r false
    else jParseDigits (c :: r) false

/-! ## The wire encoder (`sendMessage`, Tunnel.js lines 428-471 / 971-1009)

`getElement(value)` renders `string.length + "." + string`; the message is
the elements joined by `","` and terminated by `";"`. -/

/-- `getElement`: `len(e) "." e`. -/
def getElement (e : JStr) : JStr := natToDigits e.length ++ '.' :: e

/-- The `"," + getElement(eᵢ)` tail of a message followed by the final
`";"` terminator. -/
def encodeRest : List JStr → JStr
  | [] => [';']
  | e :: r => ',' :: (getElement e ++ encodeRest r)

/-- The full wire text built by `sendMessage` from its element list
(first element = opcode, rest = arguments). -/
def encodeMsg : List JStr → JStr
  | [] => []
  | e :: r => getElement e ++ encodeRest r

/-! ## Basic lemmas about the string primitives -/

theorem digitChar_isDigit (n : Nat) : (digitChar n).isDigit = true := by
  unfold digitChar
  split <;> decide

theorem digitVal_digitChar {n : Nat} (h : n < 10) : digitVal (digitChar n) = n := by
  unfold digitChar
  split <;> simp_all [digitVal] <;> omega

theorem natToDigitsAux_digits :
    ∀ (fuel n : Nat), ∀ c ∈ natToDigitsAux fuel n, c.isDigit = true := by
  intro fuel
  induction fuel with
  | zero => intro n c hc; simp [natToDigitsAux] at hc
  | succ fuel ih =>
    intro n c hc
    unfold natToDigitsAux at hc
    split at hc
    · simp at hc
      subst hc
      exact digitChar_isDigit n
    · rcases List.mem_append.1 hc with h | h
      · exact ih (n / 10) c h
      · simp at h
        subst h
        exact digitChar_isDigit _

theorem natToDigits_digits (n : Nat) : ∀ c ∈ natToDigits n, c.isDigit = true :=
  natToDigitsAux_digits (n + 1) n

theorem natToDigits_ne_nil (n : Nat) : natToDigits n ≠ [] := by
  unfold natToDigits natToDigitsAux
  split
  · simp
  · simp

theorem digitsToNat_append_one (l : JStr) (c : Char) :
    digitsToNat (l ++ [c]) = digitsToNat l * 10 + digitVal c := by
  simp [digitsToNat, List.foldl_append]

theorem digitsToNat_natToDigitsAux :
    ∀ (fuel n : Nat), n < fuel → digitsToNat (natToDigitsAux fuel n) = n := by
  intro fuel
  induction fuel with
  | zero => intro n h; omega
  | succ fuel ih =>
    intro n h
    unfold natToDigitsAux
    split
    · next h10 => simp [digitsToNat, digitVal_digitChar h10]
    · next h10 =>
      rw [digitsToNat_append_one,
        ih (n / 10) (by omega),
        digitVal_digitChar (Nat.mod_lt _ (by omega))]
      omega

theorem digitsToNat_natToDigits (n : Nat) : digitsToNat (natToDigits n) = n :=
  digitsToNat_natToDigitsAux (n + 1) n (by omega)

theorem isDigit_ne_dot {c : Char} (h : c.isDigit = true) : c ≠ '.' := by
  intro he; subst he; simp [Char.isDigit] at h

theorem isDigit_ne_space {c : Char} (h : c.isDigit = true) : c ≠ ' ' := by
  intro he; subst he; simp [Char.isDigit] at h

theorem isDigit_ne_minus {c : Char} (h : c.isDigit = true) : c ≠ '-' := by
  intro he; subst he; simp [Char.isDigit] at h

theorem isDigit_ne_plus {c : Char} (h : c.isDigit = true) : c ≠ '+' := by
  intro he; subst he; simp [Char.isDigit] at h

theorem takeWhile_of_all {p : Char → Bool} {l : JStr} (h : ∀ c ∈ l, p c = true) :
    l.takeWhile p = l := by
  induction l with
  | nil => rfl
  | cons c cs ih =>
    rw [List.takeWhile_cons, if_pos (h c (by simp)), ih fun x hx => h x (by simp [hx])]

/-- `parseInt` inverts the decimal rendering. -/
theorem jParseInt_natToDigits (n : Nat) : jParseInt (natToDigits n) = .int n := by
  have hall := natToDigits_digits n
  obtain ⟨c, cs, hl⟩ : ∃ c cs, natToDigits n = c :: cs := by
    cases h : natToDigits n with
    | nil => exact absurd h (natToDigits_ne_nil n)
    | cons c cs => exact ⟨c, cs, rfl⟩
  have hc : c.isDigit = true := hall c (by rw [hl]; simp)
  rw [hl] at hall ⊢
  show jParseInt (c :: cs) = .int n
  unfold jParseInt
  rw [List.dropWhile_cons, if_neg (by simp [isDigit_ne_space hc])]
  show (if c = '-' then _ else if c = '+' then _ else jParseDigits (c :: cs) false) = JNum.int n
  rw [if_neg (isDigit_ne_minus hc), if_neg (isDigit_ne_plus hc)]
  unfold jParseDigits
  rw [takeWhile_of_all hall]
  rw [if_neg (by simp [← hl, natToDigits_ne_nil n])]
  rw [← hl, digitsToNat_natToDigits n]
  simp

/-! ### Dropping/taking across appends -/

theorem drop_len_append (u v : List Char) : (u ++ v).drop u.length = v := by
  simp

theorem take_len_append (u v : List Char) : (u ++ v).take u.length = u := by
  simp

theorem jStartClamp_int_of_le {len k : Nat} (h : k ≤ len) :
    jStartClamp len (.int k) = k := by
  simp only [jStartClamp]
  rw [if_neg (by omega)]
  omega

theorem jEndClamp_int_of_le {len k : Nat} (h : k ≤ len) :
    jEndClamp len (.int k) = k := by
  simp only [jEndClamp]
  rw [if_neg (by omega)]
  omega

/-- Extraction: `substring` of a middle segment given by exact bounds. -/
theorem jSubstring_extract (u v w : JStr) :
    jSubstring (u ++ v ++ w) (.int u.length) (.int (u.length + v.length)) = v := by
  have hlen : (u ++ v ++ w).length = u.length + v.length + w.length := by
    simp [List.length_append]
    omega
  have h1 : jStartClamp (u ++ v ++ w).length (.int u.length) = u.length := by
    rw [hlen]; exact jStartClamp_int_of_le (by omega)
  have h2 : jEndClamp (u ++ v ++ w).length (.int (u.length + v.length)) =
      u.length + v.length := by
    rw [hlen]
    rw [show ((u.length : Int) + v.length) = ((u.length + v.length : Nat) : Int) by push_cast; ring]
    exact jEndClamp_int_of_le (by omega)
  show ((u ++ v ++ w).take (max (jStartClamp _ _) (jEndClamp _ _))).drop
      (min (jStartClamp _ _) (jEndClamp _ _)) = v
  rw [h1, h2]
  have hmin : min u.length (u.length + v.length) = u.length := by omega
  have hmax : max u.length (u.length + v.length) = u.length + v.length := by omega
  rw [hmin, hmax]
  have htake : (u ++ v ++ w).take (u.length + v.length) = u ++ v := by
    rw [show u.length + v.length = (u ++ v).length by simp]
    exact take_len_append (u ++ v) w
  rw [htake]
  exact drop_len_append u v

theorem charIdxFrom_append_of_not_mem {c : Char} {u : List Char} (v : List Char)
    (h : c ∉ u) :
    charIdxFrom c (u ++ v) = (charIdxFrom c v).map (· + u.length) := by
  induction u with
  | nil => simp [Option.map_id']
  | cons x xs ih =>
    have hx : ¬ (x = c) := by rintro rfl; simp at h
    show charIdxFrom c (x :: (xs ++ v)) = _
    rw [show charIdxFrom c (x :: (xs ++ v)) = (charIdxFrom c (xs ++ v)).map (· + 1) by
      simp [charIdxFrom, hx]]
    rw [ih (by intro hx2; exact h (by simp [hx2]))]
    cases charIdxFrom c v with
    | none => rfl
    | some i => simp [List.length_cons]; omega

theorem charIdxFrom_cons_self (c : Char) (l : List Char) :
    charIdxFrom c (c :: l) = some 0 := by
  simp [charIdxFrom]

/-- `indexOf` finds the dot right after a dot-free digit block. -/
theorem jIndexOf_digits_dot (u d w : JStr) (hd : '.' ∉ d) :
    jIndexOf (u ++ (d ++ '.' :: w)) '.' (.int u.length) =
      ((u.length + d.length : Nat) : Int) := by
  have hlen : (u ++ (d ++ '.' :: w)).length = u.length + (d.length + (w.length + 1)) := by
    simp
  have hcl : jStartClamp (u ++ (d ++ '.' :: w)).length (.int u.length) = u.length := by
    rw [hlen]; exact jStartClamp_int_of_le (by omega)
  unfold jIndexOf
  rw [hcl, drop_len_append u (d ++ '.' :: w)]
  rw [charIdxFrom_append_of_not_mem ('.' :: w) hd, charIdxFrom_cons_self]
  simp

/-- `indexOf` from the very end of the string returns `-1`. -/
theorem jIndexOf_end (s : JStr) (c : Char) :
    jIndexOf s c (.int s.length) = -1 := by
  unfold jIndexOf
  rw [jStartClamp_int_of_le (le_refl _), List.drop_length]
  rfl

theorem charIdxFrom_of_not_mem {c : Char} {l : List Char} (h : c ∉ l) :
    charIdxFrom c l = none := by
  induction l with
  | nil => rfl
  | cons x xs ih =>
    simp only [charIdxFrom]
    rw [if_neg (by rintro rfl; simp at h)]
    rw [ih (by intro hx; exact h (by simp [hx]))]
    rfl

/-- `indexOf` returns `-1` when the character does not occur at all. -/
theorem jIndexOf_of_not_mem {s : JStr} {c : Char} (h : c ∉ s) (pos : JNum) :
    jIndexOf s c pos = -1 := by
  unfold jIndexOf
  rw [charIdxFrom_of_not_mem (fun hx => h (List.mem_of_mem_drop hx))]

/-! ## Status codes (`Guacamole.Status.Code`)

`Status.js` is not part of this repository's source tree; only the code
identities used by `Tunnel.js` matter here, so statuses are modelled as an
inductive of the referenced codes (plus translated HTTP / WebSocket
codes). -/

inductive Code where
  | success
  | serverError
  | resourceNotFound
  | upstreamTimeout
  | upstreamNotFound
  | fromHTTPCode (n : Nat)
  | fromWebSocketCode (n : Nat)
deriving DecidableEq, Repr

/-- Tunnel states (`Guacamole.Tunnel.State`). -/
inductive TState where
  | Connecting
  | Open
  | Closed
  | Unstable
deriving DecidableEq, Repr

/-- The value of a tunnel's `uuid` field: `null` until assigned,
`undefined` if `setUUID` was called with a missing argument, or a
string. -/
inductive JSUuid where
  | null
  | undef
  | str (s : JStr)
deriving DecidableEq, Repr

/-! ## WebSocket tunnel (`Guacamole.WebSocketTunnel`, Tunnel.js 812-1141)

The observable effects of the tunnel (callback invocations and
transport-level side effects) are recorded as an ordered event list. -/

/-- Observable events of the WebSocket tunnel: callback invocations and
transport-level side effects. -/
inductive WSEvent where
  | stateChange (s : TState)       -- `onstatechange`
  | uuidSet (u : JSUuid)           -- `onuuid`
  | error (c : Code)               -- `onerror`
  | instr (op : JStr) (args : List JStr)  -- `oninstruction`
  | socketClosed                   -- `socket.close()`
  | authEvent                      -- `document.dispatchEvent(getAuthCredentials)`
  | alertShown                     -- `alert(...)`
  | pageReload                     -- `window.location.reload()`
  | sent (msg : JStr)              -- `socket.send(...)`
deriving DecidableEq, Repr

/-- The WebSocket tunnel's state: the shared `Guacamole.Tunnel` fields it
uses plus whether the `socket` variable is non-null, plus the recorded
event trace. -/
structure WSTunnel where
  state : TState
  uuid : JSUuid
  socketOpen : Bool
  events : List WSEvent
deriving DecidableEq, Repr

namespace WSTunnel

/-- `setState` (Tunnel.js 66-75): update and fire `onstatechange` only on
an actual change. -/
def setState (s : TState) (t : WSTunnel) : WSTunnel :=
  if s ≠ t.state then { t with state := s, events := t.events ++ [.stateChange s] }
  else t

/-- The `reset_timeout` effect visible on the tunnel state (Tunnel.js
916-936): clearing/arming timers aside, an `UNSTABLE` tunnel returns to
`OPEN`. -/
def wsResetTimeout (t : WSTunnel) : WSTunnel :=
  if t.state = TState.Unstable then setState TState.Open t else t

/-- `close_tunnel(status)` (Tunnel.js 947-969) in a context where `socket`
is known non-null: early-return when already closed; fire `onerror` for a
non-`SUCCESS` status; mark closed; close the socket. -/
def wsCloseCore (c : Code) (t : WSTunnel) : WSTunnel :=
  if t.state = TState.Closed then t
  else
    let t := if c ≠ Code.success then { t with events := t.events ++ [.error c] } else t
    let t := setState TState.Closed t
    { t with events := t.events ++ [.socketClosed] }

/-- `disconnect` = `close_tunnel(SUCCESS)` (Tunnel.js 1135-1137).  When the
tunnel is not yet closed and `socket` is still `null` (connect never
called), `socket.close()` throws a `TypeError`; this fault is modelled as
`none`. -/
def wsDisconnect (t : WSTunnel) : Option WSTunnel :=
  if t.state = TState.Closed then some t
  else if t.socketOpen then some (wsCloseCore Code.success t)
  else none

/-- `sendMessage` (Tunnel.js 971-1009): no-op unless `isConnected()`
(state `OPEN` or `UNSTABLE`) and at least one element; otherwise send the
whole encoded message. -/
def wsSendMessage (els : List JStr) (t : WSTunnel) : WSTunnel :=
  if ¬ (t.state = TState.Open ∨ t.state = TState.Unstable) then t
  else if els.length = 0 then t
  else { t with events := t.events ++ [.sent (encodeMsg els)] }

end WSTunnel

/-- The reserved internal opcode (`Guacamole.Tunnel.INTERNAL_DATA_OPCODE`),
the empty string. -/
def internalOpcode : JStr := []

/-- The `"getCredentials"` opcode specially handled at Tunnel.js 1105. -/
def getCredentialsOp : JStr := "getCredentials".data

/-- The `"reauth"` opcode specially handled at Tunnel.js 1109. -/
def reauthOp : JStr := "reauth".data

/-- First part of the `terminator === ";"` block of `socket.onmessage`
(Tunnel.js 1093-1103): when no UUID is known yet, adopt the first
argument as UUID on the internal opcode, and mark the tunnel open. -/
def wsUuidStage (op : JStr) (args : List JStr) (t : WSTunnel) : WSTunnel :=
  if t.uuid = JSUuid.null then
    WSTunnel.setState TState.Open
      (if op = internalOpcode then
        { t with
          uuid := (match args.head? with | some s => JSUuid.str s | none => JSUuid.undef)
          events := t.events ++
            [.uuidSet (match args.head? with | some s => JSUuid.str s | none => JSUuid.undef)] }
      else t)
  else t

/-- The `getCredentials` special case (Tunnel.js 1105-1108): dispatch a
DOM event. -/
def wsGcStage (op : JStr) (t : WSTunnel) : WSTunnel :=
  if op = getCredentialsOp then { t with events := t.events ++ [.authEvent] } else t

/-- The `reauth` special case (Tunnel.js 1109-1114): close the tunnel
with `UPSTREAM_TIMEOUT`, alert, and reload the page. -/
def wsReauthStage (op : JStr) (t : WSTunnel) : WSTunnel :=
  if op = reauthOp then
    { (WSTunnel.wsCloseCore Code.upstreamTimeout t) with
      events := (WSTunnel.wsCloseCore Code.upstreamTimeout t).events ++
        [.alertShown, .pageReload] }
  else t

/-- The dispatch at Tunnel.js 1116-1118: every non-internal instruction
reaches `oninstruction`. -/
def wsDispatchStage (op : JStr) (args : List JStr) (t : WSTunnel) : WSTunnel :=
  if op ≠ internalOpcode then { t with events := t.events ++ [.instr op args] } else t

/-- The whole `terminator === ";"` block of `socket.onmessage`
(Tunnel.js 1088-1123), the four statements in source order. -/
def wsHandleInstr (op : JStr) (args : List JStr) (t : WSTunnel) : WSTunnel :=
  wsDispatchStage op args (wsReauthStage op (wsGcStage op (wsUuidStage op args t)))

/-- The loop-local variables of `socket.onmessage` (Tunnel.js 1054-1057):
`startIndex`, `elementEnd` (initially `undefined`), `elements`. -/
structure WSIter where
  startIndex : JNum
  elementEnd : JNum
  elements : List JStr
deriving DecidableEq, Repr

/-- The part of the `socket.onmessage` loop body after the
`startIndex`/`elementEnd` bounds have been set (Tunnel.js 1080-1127):
extract the element and its terminator, push it, handle a completed
instruction, and advance `startIndex` past the terminator. -/
def wsAfterBounds (msg : JStr) (startIndex elementEnd : JNum)
    (elems : List JStr) (t : WSTunnel) : WSIter × WSTunnel :=
  -- We now have enough data for the element. Parse.
  let element := jSubstring msg startIndex elementEnd
  let terminator := jSubstring msg elementEnd (elementEnd.jAdd (.int 1))
  if terminator = [';'] then
    (⟨elementEnd.jAdd (.int 1), elementEnd, []⟩,
      wsHandleInstr ((elems ++ [element]).headD []) (elems ++ [element]).tail t)
  else
    (⟨elementEnd.jAdd (.int 1), elementEnd, elems ++ [element]⟩, t)

/-- One iteration of the `do { ... }` body of `socket.onmessage`
(Tunnel.js 1059-1127): search for the end of the length, set the element
bounds (or report an incomplete instruction), then run the common tail. -/
def wsBody (msg : JStr) (st : WSIter) (t : WSTunnel) : WSIter × WSTunnel :=
  -- Search for end of length (`lengthEnd`, written out at each use)
  if jIndexOf msg '.' st.startIndex ≠ -1 then
    -- Parse length; calculate start of element and location of terminator
    wsAfterBounds msg (.int (jIndexOf msg '.' st.startIndex + 1))
      ((JNum.int (jIndexOf msg '.' st.startIndex + 1)).jAdd
        (jParseInt (jSubstring msg (st.elementEnd.jAdd (.int 1))
          (.int (jIndexOf msg '.' st.startIndex)))))
      st.elements t
  else
    -- If no period, incomplete instruction.
    wsAfterBounds msg st.startIndex st.elementEnd st.elements
      (WSTunnel.wsCloseCore Code.serverError t)

/-- The `do/while` loop of `socket.onmessage`, fuel-bounded.  (On some
malformed frames the JavaScript loop never terminates; the fuel bound
only truncates such divergent runs.) -/
def wsLoop (msg : JStr) : Nat → WSIter → WSTunnel → WSTunnel
  | 0, _, t => t
  | fuel + 1, st, t =>
    if (wsBody msg st t).1.startIndex.jLt (.int msg.length) then
      wsLoop msg fuel (wsBody msg st t).1 (wsBody msg st t).2
    else (wsBody msg st t).2

/-- `socket.onmessage` (Tunnel.js 1049-1131): `reset_timeout()` then the
parse loop from fresh loop variables. -/
def wsOnMessage (fuel : Nat) (msg : JStr) (t : WSTunnel) : WSTunnel :=
  wsLoop msg fuel ⟨.int 0, .undef, []⟩ (WSTunnel.wsResetTimeout t)

/-! ### The decoder on well-formed framings -/

theorem jStartClamp_eq {len : Nat} {i : Int} (k : Nat) (h : i = (k : Int)) (hle : k ≤ len) :
    jStartClamp len (.int i) = k := by
  subst h; exact jStartClamp_int_of_le hle

theorem jEndClamp_eq {len : Nat} {i : Int} (k : Nat) (h : i = (k : Int)) (hle : k ≤ len) :
    jEndClamp len (.int i) = k := by
  subst h; exact jEndClamp_int_of_le hle

/-- `substring` extraction by clamp values. -/
theorem jSubstring_eq_mid (u v w : JStr) (a b : JNum)
    (ha : jStartClamp (u ++ v ++ w).length a = u.length)
    (hb : jEndClamp (u ++ v ++ w).length b = u.length + v.length) :
    jSubstring (u ++ v ++ w) a b = v := by
  unfold jSubstring
  rw [ha, hb]
  rw [min_eq_left (by omega), max_eq_right (by omega)]
  have htake : (u ++ v ++ w).take (u.length + v.length) = u ++ v := by
    rw [show u.length + v.length = (u ++ v).length by simp]
    exact take_len_append (u ++ v) w
  rw [htake]
  exact drop_len_append u v

theorem natToDigits_no_dot (n : Nat) : '.' ∉ natToDigits n := by
  intro h
  exact isDigit_ne_dot (natToDigits_digits n '.' h) rfl

/-- With the bounds set to an exact payload window, the common tail of
the `socket.onmessage` loop body extracts that payload and its
terminator. -/
theorem wsAfterBounds_payload (u e w : JStr) (c : Char) (acc : List JStr) (t : WSTunnel)
    (a b : Int) (ha : a = (u.length : Int)) (hb : b = ((u.length + e.length : Nat) : Int)) :
    wsAfterBounds (u ++ e ++ c :: w) (.int a) (.int b) acc t =
      (⟨.int (b + 1), .int b, if c = ';' then [] else acc ++ [e]⟩,
        if c = ';' then wsHandleInstr ((acc ++ [e]).headD []) (acc ++ [e]).tail t else t) := by
  have hlen : (u ++ e ++ c :: w).length = u.length + e.length + 1 + w.length := by
    simp [List.length_append]
    omega
  have helem : jSubstring (u ++ e ++ c :: w) (.int a) (.int b) = e :=
    jSubstring_eq_mid u e (c :: w) _ _
      (jStartClamp_eq u.length ha (by omega))
      (jEndClamp_eq (u.length + e.length) hb (by omega))
  have hterm : jSubstring (u ++ e ++ c :: w) (.int b) ((JNum.int b).jAdd (.int 1)) = [c] := by
    have hass : u ++ e ++ c :: w = (u ++ e) ++ [c] ++ w := by
      simp [List.append_assoc]
    rw [hass]
    refine jSubstring_eq_mid (u ++ e) [c] w _ _ ?_ ?_
    · rw [← hass, hlen]
      exact jStartClamp_eq (u ++ e).length
        (by simp only [List.length_append]; push_cast; omega)
        (by simp only [List.length_append]; omega)
    · rw [← hass, hlen]
      show jEndClamp _ (.int (b + 1)) = _
      exact jEndClamp_eq ((u ++ e).length + 1)
        (by simp only [List.length_append]; push_cast; omega)
        (by simp only [List.length_append]; omega)
  unfold wsAfterBounds
  rw [helem, hterm]
  have hstep : (JNum.int b).jAdd (JNum.int 1) = JNum.int (b + 1) := rfl
  by_cases hc : c = ';'
  · rw [if_pos (by rw [hc]), if_pos hc, if_pos hc, hstep]
  · rw [if_neg (by simp [hc]), if_neg hc, if_neg hc, hstep]

/-- On an invariant-respecting state, one `socket.onmessage` loop
iteration consumes exactly the element `e`, pushing it (terminator `,`)
or dispatching the accumulated instruction (terminator `;`). -/
theorem wsBody_invariant (pre e w : JStr) (c : Char) (acc : List JStr) (ee : JNum)
    (t : WSTunnel)
    (hee : jStartClamp (pre ++ getElement e ++ c :: w).length (ee.jAdd (.int 1)) = pre.length) :
    wsBody (pre ++ getElement e ++ c :: w) ⟨.int pre.length, ee, acc⟩ t =
      (⟨.int ((pre ++ getElement e).length + 1), .int (pre ++ getElement e).length,
          if c = ';' then [] else acc ++ [e]⟩,
        if c = ';' then wsHandleInstr ((acc ++ [e]).headD []) (acc ++ [e]).tail t else t) := by
  have hmsg₁ : pre ++ getElement e ++ c :: w =
      pre ++ (natToDigits e.length ++ '.' :: (e ++ c :: w)) := by
    simp [getElement, List.append_assoc]
  have hlen : (pre ++ getElement e ++ c :: w).length =
      pre.length + (natToDigits e.length).length + 1 + e.length + 1 + w.length := by
    simp [getElement, List.length_append]
    omega
  -- the length search finds the framing dot
  have hidx : jIndexOf (pre ++ getElement e ++ c :: w) '.' (.int pre.length) =
      ((pre.length + (natToDigits e.length).length : Nat) : Int) := by
    rw [hmsg₁]
    exact jIndexOf_digits_dot pre (natToDigits e.length) (e ++ c :: w)
      (natToDigits_no_dot e.length)
  unfold wsBody
  rw [hidx, if_pos (by omega)]
  -- the parsed length is the length of `e`
  have hsubdig : jSubstring (pre ++ getElement e ++ c :: w) (ee.jAdd (.int 1))
      (.int ((pre.length + (natToDigits e.length).length : Nat) : Int)) = natToDigits e.length := by
    have := jSubstring_eq_mid pre (natToDigits e.length) ('.' :: (e ++ c :: w))
      (ee.jAdd (.int 1)) (.int ((pre.length + (natToDigits e.length).length : Nat) : Int))
      (by rw [List.append_assoc, ← hmsg₁]; exact hee)
      (by
        rw [List.append_assoc, ← hmsg₁]
        exact jEndClamp_eq _ rfl (by rw [hlen]; omega))
    rw [List.append_assoc, ← hmsg₁] at this
    exact this
  rw [hsubdig, jParseInt_natToDigits, JNum.jAdd_int]
  have hre : pre ++ getElement e ++ c :: w =
      (pre ++ natToDigits e.length ++ ['.']) ++ e ++ c :: w := by
    simp [getElement, List.append_assoc]
  rw [hre]
  rw [wsAfterBounds_payload (pre ++ natToDigits e.length ++ ['.']) e w c acc t _ _
    (by simp only [List.length_append, List.length_cons, List.length_nil]; push_cast; ring)
    (by simp only [List.length_append, List.length_cons, List.length_nil]; push_cast; ring)]
  have h1 : (((pre.length + (natToDigits e.length).length : Nat) : Int) + 1 + (e.length : Int)) =
      ((pre ++ getElement e).length : Int) := by
    simp only [getElement, List.length_append, List.length_cons]
    push_cast
    ring
  rw [h1]

/-- A `getElement` rendering is at least two characters long. -/
theorem getElement_length (e : JStr) : 2 ≤ (getElement e).length := by
  have h := natToDigits_ne_nil e.length
  have : 1 ≤ (natToDigits e.length).length := by
    cases hn : natToDigits e.length with
    | nil => exact absurd hn h
    | cons a l => simp
  simp [getElement, List.length_append]
  omega

/-- `encodeRest` is never empty. -/
theorem encodeRest_length (r : List JStr) : 1 ≤ (encodeRest r).length := by
  cases r <;> simp [encodeRest]

/-- Running the `socket.onmessage` loop from an invariant-respecting state
over the encoded tail `e :: rest` of a message consumes every element and
dispatches a single instruction assembled from `acc ++ e :: rest`. -/
theorem wsLoop_consume (rest : List JStr) :
    ∀ (pre e : JStr) (acc : List JStr) (fuel : Nat) (ee : JNum) (t : WSTunnel),
    rest.length ≤ fuel →
    jStartClamp (pre ++ getElement e ++ encodeRest rest).length (ee.jAdd (.int 1)) =
      pre.length →
    wsLoop (pre ++ getElement e ++ encodeRest rest) (fuel + 1) ⟨.int pre.length, ee, acc⟩ t
      = wsHandleInstr ((acc ++ e :: rest).headD []) (acc ++ e :: rest).tail t := by
  induction rest with
  | nil =>
    intro pre e acc fuel ee t _ hee
    show wsLoop (pre ++ getElement e ++ encodeRest []) (fuel + 1) _ _ = _
    rw [show encodeRest [] = ';' :: [] from rfl] at hee ⊢
    unfold wsLoop
    rw [wsBody_invariant pre e [] ';' acc ee t hee]
    have hlen : (pre ++ getElement e ++ ';' :: []).length = (pre ++ getElement e).length + 1 := by
      simp [List.length_append]
      omega
    have hlt : (JNum.int (((pre ++ getElement e).length : Int) + 1)).jLt
        (.int ((pre ++ getElement e ++ ';' :: []).length : Int)) = false := by
      rw [hlen]
      simp [JNum.jLt]
    dsimp only
    rw [hlt]
    simp
  | cons e' r' ih =>
    intro pre e acc fuel ee t hfuel hee
    show wsLoop (pre ++ getElement e ++ encodeRest (e' :: r')) (fuel + 1) _ _ = _
    rw [show encodeRest (e' :: r') = ',' :: (getElement e' ++ encodeRest r') from rfl] at hee ⊢
    unfold wsLoop
    rw [wsBody_invariant pre e (getElement e' ++ encodeRest r') ',' acc ee t hee]
    have hlen : (pre ++ getElement e ++ ',' :: (getElement e' ++ encodeRest r')).length =
        (pre ++ getElement e).length + 1 + (getElement e').length + (encodeRest r').length := by
      simp [List.length_append]
      omega
    have hlt : (JNum.int (((pre ++ getElement e).length : Int) + 1)).jLt
        (.int ((pre ++ getElement e ++ ',' :: (getElement e' ++ encodeRest r')).length : Int)) =
        true := by
      rw [hlen]
      have h2 := getElement_length e'
      have h3 := encodeRest_length r'
      simp [JNum.jLt]
      push_cast
      omega
    dsimp only
    rw [hlt, if_pos rfl]
    simp only [if_neg (show ¬((',' : Char) = ';') by decide)]
    obtain ⟨f, rfl⟩ : ∃ f, fuel = f + 1 := by
      cases fuel with
      | zero => simp at hfuel
      | succ f => exact ⟨f, rfl⟩
    have hmsg : pre ++ getElement e ++ ',' :: (getElement e' ++ encodeRest r') =
        (pre ++ getElement e ++ [',']) ++ getElement e' ++ encodeRest r' := by
      simp [List.append_assoc]
    have hpre : ((pre ++ getElement e ++ [',']).length : Int) =
        ((pre ++ getElement e).length : Int) + 1 := by
      simp [List.length_append]
      omega
    have hstart : JNum.int (((pre ++ getElement e).length : Int) + 1) =
        .int ((pre ++ getElement e ++ [',']).length : Int) := by rw [hpre]
    rw [hmsg, hstart]
    rw [ih (pre ++ getElement e ++ [',']) e' (acc ++ [e]) f
      (.int ((pre ++ getElement e).length : Int)) t (by simpa using hfuel)
      (by
        rw [JNum.jAdd_int]
        refine jStartClamp_eq (pre ++ getElement e ++ [',']).length (by rw [hpre]) ?_
        rw [← hmsg]
        rw [hlen]
        have h2 := getElement_length e'
        have h3 := encodeRest_length r'
        simp [List.length_append]
        omega)]
    rw [show acc ++ [e] ++ e' :: r' = acc ++ e :: e' :: r' by simp]

/-- Feeding one whole encoded message to `socket.onmessage` performs
`reset_timeout` and then handles exactly the instruction
`(op, args)`. -/
theorem wsOnMessage_encode (op : JStr) (args : List JStr) (fuel : Nat) (t : WSTunnel)
    (hfuel : args.length ≤ fuel) :
    wsOnMessage (fuel + 1) (encodeMsg (op :: args)) t =
      wsHandleInstr op args (WSTunnel.wsResetTimeout t) := by
  unfold wsOnMessage
  rw [show encodeMsg (op :: args) = [] ++ getElement op ++ encodeRest args by
    simp [encodeMsg]]
  rw [show (JNum.int 0) = .int (([] : JStr).length : Int) by simp]
  rw [wsLoop_consume args [] op [] fuel .undef (WSTunnel.wsResetTimeout t) hfuel rfl]
  simp

/-- A frame containing no `.` at all: the missing-delimiter branch fires
on the first iteration, the stale `substring` bounds produce an empty
terminator, and the `NaN` startIndex ends the loop. -/
theorem wsOnMessage_no_dot (msg : JStr) (fuel : Nat) (t : WSTunnel)
    (hdot : '.' ∉ msg) (hst : t.state = TState.Open) :
    wsOnMessage (fuel + 1) msg t =
      { t with state := TState.Closed,
               events := t.events ++ [.error Code.serverError,
                 .stateChange TState.Closed, .socketClosed] } := by
  have hreset : WSTunnel.wsResetTimeout t = t := by
    unfold WSTunnel.wsResetTimeout
    rw [if_neg (by rw [hst]; decide)]
  have hclose : WSTunnel.wsCloseCore Code.serverError t =
      { t with state := TState.Closed,
               events := t.events ++ [.error Code.serverError,
                 .stateChange TState.Closed, .socketClosed] } := by
    unfold WSTunnel.wsCloseCore WSTunnel.setState
    rw [if_neg (by rw [hst]; decide)]
    simp [hst]
  have hterm : jSubstring msg JNum.undef (JNum.undef.jAdd (.int 1)) = [] := by
    show ((msg.take (max (jStartClamp msg.length .undef) (jEndClamp msg.length .nan))).drop
      (min (jStartClamp msg.length .undef) (jEndClamp msg.length .nan))) = []
    simp [jStartClamp, jEndClamp]
  have hbody : wsBody msg ⟨.int 0, .undef, []⟩ t =
      (⟨JNum.nan, .undef, [jSubstring msg (.int 0) .undef]⟩,
        WSTunnel.wsCloseCore Code.serverError t) := by
    unfold wsBody
    dsimp only
    rw [jIndexOf_of_not_mem hdot]
    rw [if_neg (show ¬((-1 : Int) ≠ -1) by decide)]
    unfold wsAfterBounds
    rw [hterm]
    rw [if_neg (show ¬(([] : JStr) = [';']) by decide)]
    rfl
  unfold wsOnMessage wsLoop
  rw [hreset, hbody]
  dsimp only
  rw [show JNum.jLt JNum.nan (.int (msg.length : Int)) = false from rfl]
  rw [if_neg (by simp)]
  exact hclose

/-! ## HTTP tunnel response parsing (`handleResponse`/`parseResponse`,
Tunnel.js 538-720)

The closure state of one `handleResponse` invocation consists of
`elementEnd` (initially `-1`), `startIndex` (initially `0`) and the
partial `elements` array; `current` is the full `responseText` received
so far.  Each entry into `parseResponse` runs the `while` loop below; the
zero-length element aborts the response (`finished = true`), and the
missing-period branch leaves the state ready for the next chunk. -/

/-- Parser state of one HTTP read response (Tunnel.js 545-552). -/
structure HRespState where
  elementEnd : JNum
  startIndex : JNum
  elements : List JStr
deriving DecidableEq, Repr

/-- Fresh `handleResponse` closure state (Tunnel.js 546-549). -/
def hInit : HRespState := ⟨.int (-1), .int 0, []⟩

/-- The `if (elementEnd >= startIndex)` element-completion step of the
HTTP parse loop (Tunnel.js 617-645): extract the element and terminator,
push, dispatch on `";"`, and move `startIndex` past the terminator. -/
def httpExtract (current : JStr) (st : HRespState) : HRespState × List Instr :=
  if st.elementEnd.jGe st.startIndex then
    if jSubstring current st.elementEnd (st.elementEnd.jAdd (.int 1)) = [';'] then
      (⟨st.elementEnd, st.elementEnd.jAdd (.int 1), []⟩,
        [(((st.elements ++ [jSubstring current st.startIndex st.elementEnd]).headD []),
          (st.elements ++ [jSubstring current st.startIndex st.elementEnd]).tail)])
    else
      (⟨st.elementEnd, st.elementEnd.jAdd (.int 1),
        st.elements ++ [jSubstring current st.startIndex st.elementEnd]⟩, [])
  else (st, [])

/-- The `while` loop of `parseResponse` (Tunnel.js 613-689), fuel-bounded.
Returns the persisting parser state, the instructions dispatched to
`oninstruction` in order, and whether the zero-length end-of-response
element was reached (upon which the real code aborts this request and
chains to the pre-issued next request). -/
def httpLoop (current : JStr) : Nat → HRespState → HRespState × List Instr × Bool
  | 0, st => (st, [], false)
  | fuel + 1, st =>
    if st.elementEnd.jLt (.int current.length) then
      -- element-completion step, then the length search
      if jIndexOf current '.' (httpExtract current st).1.startIndex ≠ -1 then
        if jParseInt (jSubstring current ((httpExtract current st).1.elementEnd.jAdd (.int 1))
            (.int (jIndexOf current '.' (httpExtract current st).1.startIndex))) = .int 0 then
          -- zero-length element: done parsing this response
          ((httpExtract current st).1, (httpExtract current st).2, true)
        else
          -- advance to the next element's bounds and continue the loop
          ((httpLoop current fuel
            ⟨(JNum.int (jIndexOf current '.' (httpExtract current st).1.startIndex + 1)).jAdd
                (jParseInt (jSubstring current
                  ((httpExtract current st).1.elementEnd.jAdd (.int 1))
                  (.int (jIndexOf current '.' (httpExtract current st).1.startIndex)))),
              .int (jIndexOf current '.' (httpExtract current st).1.startIndex + 1),
              (httpExtract current st).1.elements⟩).1,
            (httpExtract current st).2 ++
              (httpLoop current fuel
                ⟨(JNum.int (jIndexOf current '.' (httpExtract current st).1.startIndex + 1)).jAdd
                    (jParseInt (jSubstring current
                      ((httpExtract current st).1.elementEnd.jAdd (.int 1))
                      (.int (jIndexOf current '.' (httpExtract current st).1.startIndex)))),
                  .int (jIndexOf current '.' (httpExtract current st).1.startIndex + 1),
                  (httpExtract current st).1.elements⟩).2.1,
            (httpLoop current fuel
              ⟨(JNum.int (jIndexOf current '.' (httpExtract current st).1.startIndex + 1)).jAdd
                  (jParseInt (jSubstring current
                    ((httpExtract current st).1.elementEnd.jAdd (.int 1))
                    (.int (jIndexOf current '.' (httpExtract current st).1.startIndex)))),
                .int (jIndexOf current '.' (httpExtract current st).1.startIndex + 1),
                (httpExtract current st).1.elements⟩).2.2)
      else
        -- no period yet: wait for more data
        (⟨(httpExtract current st).1.elementEnd, .int current.length,
            (httpExtract current st).1.elements⟩,
          (httpExtract current st).2, false)
    else (st, [], false)

/-- `jIndexOf` finds the dot after a dot-free digit block, for any
position whose clamp lands at the block start. -/
theorem jIndexOf_digits_dot_clamp (u d w : JStr) (p : JNum) (hd : '.' ∉ d)
    (hp : jStartClamp (u ++ (d ++ '.' :: w)).length p = u.length) :
    jIndexOf (u ++ (d ++ '.' :: w)) '.' p = ((u.length + d.length : Nat) : Int) := by
  unfold jIndexOf
  rw [hp, drop_len_append u (d ++ '.' :: w)]
  rw [charIdxFrom_append_of_not_mem ('.' :: w) hd, charIdxFrom_cons_self]
  simp

/-- One element-completion step on a pending state: the element is `e`,
the terminator is `c`. -/
theorem httpExtract_pending (u e w : JStr) (c : Char) (acc : List JStr) (a b : Int)
    (ha : a = ((u.length + e.length : Nat) : Int)) (hb : b = (u.length : Int)) :
    httpExtract (u ++ e ++ c :: w) ⟨.int a, .int b, acc⟩ =
      (⟨.int a, .int (a + 1), if c = ';' then [] else acc ++ [e]⟩,
        if c = ';' then [((acc ++ [e]).headD [], (acc ++ [e]).tail)] else []) := by
  have hlen : (u ++ e ++ c :: w).length = u.length + e.length + 1 + w.length := by
    simp [List.length_append]
    omega
  have hterm : jSubstring (u ++ e ++ c :: w) (.int a) ((JNum.int a).jAdd (.int 1)) = [c] := by
    have hass : u ++ e ++ c :: w = (u ++ e) ++ [c] ++ w := by
      simp [List.append_assoc]
    rw [hass]
    refine jSubstring_eq_mid (u ++ e) [c] w _ _ ?_ ?_
    · rw [← hass, hlen]
      exact jStartClamp_eq (u ++ e).length
        (by simp only [List.length_append]; push_cast; omega)
        (by simp only [List.length_append]; omega)
    · rw [← hass, hlen]
      show jEndClamp _ (.int (a + 1)) = _
      exact jEndClamp_eq ((u ++ e).length + 1)
        (by simp only [List.length_append]; push_cast; omega)
        (by simp only [List.length_append]; omega)
  have helem : jSubstring (u ++ e ++ c :: w) (.int b) (.int a) = e :=
    jSubstring_eq_mid u e (c :: w) _ _
      (jStartClamp_eq u.length (by omega) (by rw [hlen]; omega))
      (jEndClamp_eq (u.length + e.length) (by omega) (by rw [hlen]; omega))
  unfold httpExtract
  rw [if_pos (show (JNum.int a).jGe (.int b) = true by
    simp only [JNum.jGe, decide_eq_true_eq]
    omega)]
  rw [hterm, helem]
  have hstep : (JNum.int a).jAdd (JNum.int 1) = JNum.int (a + 1) := rfl
  by_cases hc : c = ';'
  · rw [if_pos (by rw [hc]), if_pos hc, if_pos hc, hstep]
  · rw [if_neg (by simp [hc]), if_neg hc, if_neg hc, hstep]

/-- Running the HTTP parse loop from a pending-element state over the
encoded tail `e :: rest` dispatches a single instruction assembled from
`acc ++ e :: rest` and leaves the state parked at the end of the
response (with `finished = false`: no zero-length element occurs). -/
theorem httpLoop_pending (rest : List JStr) :
    ∀ (u e : JStr) (acc : List JStr) (fuel : Nat) (a b : Int),
    (∀ x ∈ rest, x ≠ []) → rest.length + 1 ≤ fuel + 1 →
    a = ((u.length + e.length : Nat) : Int) → b = (u.length : Int) →
    httpLoop (u ++ e ++ encodeRest rest) (fuel + 1) ⟨.int a, .int b, acc⟩ =
      (⟨.int (((u ++ e ++ encodeRest rest).length : Int) - 1),
          .int ((u ++ e ++ encodeRest rest).length : Int), []⟩,
        [((acc ++ e :: rest).headD [], (acc ++ e :: rest).tail)], false) := by
  induction rest with
  | nil =>
    intro u e acc fuel a b _ _ ha hb
    show httpLoop (u ++ e ++ encodeRest []) (fuel + 1) _ = _
    rw [show encodeRest [] = ';' :: [] from rfl]
    have hlen : (u ++ e ++ ';' :: []).length = u.length + e.length + 1 := by
      simp [List.length_append]
      omega
    unfold httpLoop
    rw [if_pos (show (JNum.int a).jLt (.int ((u ++ e ++ ';' :: []).length : Int)) = true by
      simp only [JNum.jLt, decide_eq_true_eq]
      rw [hlen]; push_cast; omega)]
    rw [httpExtract_pending u e [] ';' acc a b ha hb]
    dsimp only
    rw [if_pos rfl, if_pos rfl]
    have hidx : jIndexOf (u ++ e ++ ';' :: []) '.' (.int (a + 1)) = -1 := by
      have : JNum.int (a + 1) = .int ((u ++ e ++ ';' :: []).length : Int) := by
        rw [hlen]; congr 1; push_cast; omega
      rw [this]
      exact jIndexOf_end _ '.'
    rw [hidx]
    rw [if_neg (show ¬((-1 : Int) ≠ -1) by decide)]
    simp only [Prod.mk.injEq, HRespState.mk.injEq, JNum.int.injEq, and_true, true_and,
      List.append_nil]
    rw [hlen]
    push_cast
    omega
  | cons e' r' ih =>
    intro u e acc fuel a b hne hfuel ha hb
    show httpLoop (u ++ e ++ encodeRest (e' :: r')) (fuel + 1) _ = _
    rw [show encodeRest (e' :: r') = ',' :: (getElement e' ++ encodeRest r') from rfl]
    have hge : 2 ≤ (getElement e').length := getElement_length e'
    have her : 1 ≤ (encodeRest r').length := encodeRest_length r'
    have hlen : (u ++ e ++ ',' :: (getElement e' ++ encodeRest r')).length =
        u.length + e.length + 1 + (getElement e').length + (encodeRest r').length := by
      simp [List.length_append]
      omega
    unfold httpLoop
    rw [if_pos (show (JNum.int a).jLt
        (.int ((u ++ e ++ ',' :: (getElement e' ++ encodeRest r')).length : Int)) = true by
      simp only [JNum.jLt, decide_eq_true_eq]
      rw [hlen]; push_cast; omega)]
    rw [httpExtract_pending u e (getElement e' ++ encodeRest r') ',' acc a b ha hb]
    dsimp only
    simp only [if_neg (show ¬((',' : Char) = ';') by decide)]
    have hmsg : u ++ e ++ ',' :: (getElement e' ++ encodeRest r') =
        (u ++ e ++ [',']) ++ (natToDigits e'.length ++ '.' :: (e' ++ encodeRest r')) := by
      simp [getElement, List.append_assoc]
    have hlen2 : (u ++ e ++ ',' :: (getElement e' ++ encodeRest r')).length =
        u.length + e.length + 1 +
          ((natToDigits e'.length).length + 1 + e'.length) + (encodeRest r').length := by
      simp [getElement, List.length_append]
      omega
    have hidx : jIndexOf (u ++ e ++ ',' :: (getElement e' ++ encodeRest r')) '.'
        (.int (a + 1)) =
        (((u ++ e ++ [',']).length + (natToDigits e'.length).length : Nat) : Int) := by
      rw [hmsg]
      refine jIndexOf_digits_dot_clamp _ _ _ _ (natToDigits_no_dot e'.length) ?_
      refine jStartClamp_eq (u ++ e ++ [',']).length ?_ ?_
      · simp only [List.length_append, List.length_cons, List.length_nil]
        push_cast
        omega
      · rw [← hmsg, hlen2]
        simp only [List.length_append, List.length_cons, List.length_nil]
        omega
    rw [hidx]
    rw [if_pos (show ((((u ++ e ++ [',']).length + (natToDigits e'.length).length : Nat) : Int)
        ≠ -1) by push_cast; omega)]
    have hdig : jSubstring (u ++ e ++ ',' :: (getElement e' ++ encodeRest r'))
        ((JNum.int a).jAdd (.int 1))
        (.int (((u ++ e ++ [',']).length + (natToDigits e'.length).length : Nat) : Int)) =
        natToDigits e'.length := by
      rw [JNum.jAdd_int]
      have hass : u ++ e ++ ',' :: (getElement e' ++ encodeRest r') =
          (u ++ e ++ [',']) ++ natToDigits e'.length ++ ('.' :: (e' ++ encodeRest r')) := by
        simp [getElement, List.append_assoc]
      rw [hass]
      refine jSubstring_eq_mid _ _ _ _ _ ?_ ?_
      · refine jStartClamp_eq (u ++ e ++ [',']).length ?_ ?_
        · simp only [List.length_append, List.length_cons, List.length_nil]
          push_cast
          omega
        · rw [← hass, hlen2]
          simp only [List.length_append, List.length_cons, List.length_nil]
          omega
      · refine jEndClamp_eq ((u ++ e ++ [',']).length + (natToDigits e'.length).length)
          (by push_cast; omega) ?_
        rw [← hass, hlen2]
        simp only [List.length_append, List.length_cons, List.length_nil]
        omega
    rw [hdig, jParseInt_natToDigits]
    rw [if_neg (show ¬(JNum.int (e'.length : Int) = .int 0) by
      simp only [JNum.int.injEq]
      have : e' ≠ [] := hne e' (by simp)
      have : e'.length ≠ 0 := by simpa [List.length_eq_zero] using this
      push_cast
      omega)]
    rw [JNum.jAdd_int]
    obtain ⟨f, rfl⟩ : ∃ f, fuel = f + 1 := by
      cases fuel with
      | zero => simp at hfuel
      | succ f => exact ⟨f, rfl⟩
    have hmsg2 : u ++ e ++ ',' :: (getElement e' ++ encodeRest r') =
        (u ++ e ++ [','] ++ natToDigits e'.length ++ ['.']) ++ e' ++ encodeRest r' := by
      simp [getElement, List.append_assoc]
    rw [hmsg2]
    rw [ih (u ++ e ++ [','] ++ natToDigits e'.length ++ ['.']) e' (acc ++ [e]) f _ _
      (fun x hx => hne x (by simp [hx]))
      (by simpa using hfuel)
      (by simp only [List.length_append, List.length_cons, List.length_nil]; push_cast; ring)
      (by simp only [List.length_append, List.length_cons, List.length_nil]; push_cast; ring)]
    rw [show acc ++ [e] ++ e' :: r' = acc ++ e :: e' :: r' by simp]
    simp

/-- Parsing a whole encoded message (all elements nonempty) from a fresh
`handleResponse` state dispatches exactly the original instruction, does
not hit the zero-length end-of-response element, and parks the state at
the end of the text. -/
theorem httpLoop_encode (op : JStr) (args : List JStr) (fuel : Nat)
    (hop : op ≠ []) (hargs : ∀ x ∈ args, x ≠ []) (hfuel : args.length + 2 ≤ fuel + 2) :
    httpLoop (encodeMsg (op :: args)) (fuel + 2) hInit =
      (⟨.int (((encodeMsg (op :: args)).length : Int) - 1),
          .int ((encodeMsg (op :: args)).length : Int), []⟩,
        [(op, args)], false) := by
  have hmsg : encodeMsg (op :: args) =
      [] ++ (natToDigits op.length ++ '.' :: (op ++ encodeRest args)) := by
    simp [encodeMsg, getElement, List.append_assoc]
  have hlen : (encodeMsg (op :: args)).length =
      (natToDigits op.length).length + 1 + op.length + (encodeRest args).length := by
    rw [hmsg]
    simp [List.length_append]
    omega
  show httpLoop (encodeMsg (op :: args)) (fuel + 1 + 1) ⟨.int (-1), .int 0, []⟩ = _
  unfold httpLoop
  dsimp only
  rw [if_pos (show (JNum.int (-1)).jLt (.int ((encodeMsg (op :: args)).length : Int)) = true by
    simp only [JNum.jLt, decide_eq_true_eq]
    omega)]
  have hext : httpExtract (encodeMsg (op :: args)) ⟨.int (-1), .int 0, []⟩ =
      (⟨.int (-1), .int 0, []⟩, []) := by
    unfold httpExtract
    rw [if_neg (by decide)]
  rw [hext]
  dsimp only
  have hidx : jIndexOf (encodeMsg (op :: args)) '.' (.int 0) =
      ((([] : JStr).length + (natToDigits op.length).length : Nat) : Int) := by
    rw [hmsg]
    refine jIndexOf_digits_dot_clamp _ _ _ _ (natToDigits_no_dot op.length) ?_
    exact jStartClamp_eq ([] : JStr).length (by simp) (by simp)
  rw [hidx]
  rw [if_pos (show ((((([] : JStr).length + (natToDigits op.length).length : Nat)) : Int)
      ≠ -1) by push_cast; omega)]
  have hdig : jSubstring (encodeMsg (op :: args)) ((JNum.int (-1)).jAdd (.int 1))
      (.int (((([] : JStr).length + (natToDigits op.length).length : Nat)) : Int)) =
      natToDigits op.length := by
    rw [JNum.jAdd_int]
    rw [hmsg, show ([] : JStr) ++ (natToDigits op.length ++ '.' :: (op ++ encodeRest args)) =
      ([] : JStr) ++ natToDigits op.length ++ ('.' :: (op ++ encodeRest args)) by simp]
    refine jSubstring_eq_mid _ _ _ _ _ ?_ ?_
    · exact jStartClamp_eq ([] : JStr).length (by simp) (by simp)
    · refine jEndClamp_eq (([] : JStr).length + (natToDigits op.length).length)
        (by push_cast; simp) ?_
      simp [List.length_append]
  rw [hdig, jParseInt_natToDigits]
  rw [if_neg (show ¬(JNum.int (op.length : Int) = .int 0) by
    simp only [JNum.int.injEq]
    have : op.length ≠ 0 := by simpa [List.length_eq_zero] using hop
    push_cast
    omega)]
  rw [JNum.jAdd_int]
  have hmsg2 : encodeMsg (op :: args) =
      (natToDigits op.length ++ ['.']) ++ op ++ encodeRest args := by
    simp [encodeMsg, getElement, List.append_assoc]
  rw [hmsg2]
  rw [httpLoop_pending args (natToDigits op.length ++ ['.']) op [] fuel _ _ hargs
    (by omega)
    (by simp only [List.length_append, List.length_cons, List.length_nil]; push_cast; ring)
    (by simp only [List.length_append, List.length_cons, List.length_nil]; push_cast; ring)]
  simp

/-! ## The long-polling read loop across two overlapping requests
(Tunnel.js 576-578, 648-680)

`parseResponse` pre-issues the next read request as soon as the current
response starts arriving (line 577), but installs no handler on it:
bytes arriving for the next request only accumulate in its
`responseText`.  Only when the zero-length element is parsed does the
current handler abort its request and call `handleResponse(nextRequest)`
(lines 655-671), which creates a fresh parser state and immediately
parses whatever accumulated.  The machine below models exactly this for
a pair of overlapping requests; phase 1 = parsing request 1, phase 2 =
parsing request 2, phase 3 = request 2 also finished. -/

/-- Events observable at the `oninstruction` boundary, tagged with the
read request whose response carried them, plus the processing of the
end-of-response marker of request 1. -/
inductive TraceEv where
  | marker
  | instrEv (req : Nat) (i : Instr)
deriving DecidableEq, Repr

/-- State of the two-request read scenario. -/
structure ReadState where
  phase : Nat
  text1 : JStr
  st1 : HRespState
  text2 : JStr
  st2 : HRespState
  trace : List TraceEv
deriving DecidableEq, Repr

/-- Network events: a chunk of response text arriving for request 1 or
request 2 (in arbitrary interleaving). -/
inductive RWEvent where
  | chunk1 (s : JStr)
  | chunk2 (s : JStr)
deriving DecidableEq, Repr

/-- Fuel that always suffices for one `parseResponse` entry (the real
loop advances `elementEnd` on every iteration). -/
def httpFuel (s : JStr) : Nat := s.length + 2

/-- Fresh two-request scenario state. -/
def readInit : ReadState := ⟨1, [], hInit, [], hInit, []⟩

/-- One network event of the two-request scenario. -/
def readStep (rs : ReadState) (ev : RWEvent) : ReadState :=
  match ev with
  | .chunk1 s =>
    if rs.phase = 1 then
      -- new data for request 1: `parseResponse` runs over the grown text
      if (httpLoop (rs.text1 ++ s) (httpFuel (rs.text1 ++ s)) rs.st1).2.2 then
        -- zero-length element: abort request 1, handle the pre-issued
        -- request 2 from a fresh parser state over its accumulated text
        { phase := if (httpLoop rs.text2 (httpFuel rs.text2) hInit).2.2 then 3 else 2,
          text1 := rs.text1 ++ s,
          st1 := (httpLoop (rs.text1 ++ s) (httpFuel (rs.text1 ++ s)) rs.st1).1,
          text2 := rs.text2,
          st2 := (httpLoop rs.text2 (httpFuel rs.text2) hInit).1,
          trace := rs.trace ++
            ((httpLoop (rs.text1 ++ s) (httpFuel (rs.text1 ++ s)) rs.st1).2.1).map
              (TraceEv.instrEv 1) ++
            [TraceEv.marker] ++
            ((httpLoop rs.text2 (httpFuel rs.text2) hInit).2.1).map (TraceEv.instrEv 2) }
      else
        { rs with
          text1 := rs.text1 ++ s,
          st1 := (httpLoop (rs.text1 ++ s) (httpFuel (rs.text1 ++ s)) rs.st1).1,
          trace := rs.trace ++
            ((httpLoop (rs.text1 ++ s) (httpFuel (rs.text1 ++ s)) rs.st1).2.1).map
              (TraceEv.instrEv 1) }
    else rs  -- request 1 was aborted; its handler is gone
  | .chunk2 s =>
    if rs.phase = 1 then
      -- no handler installed on the pre-issued request yet: data only
      -- accumulates, nothing is parsed or delivered
      { rs with text2 := rs.text2 ++ s }
    else if rs.phase = 2 then
      { rs with
        phase := if (httpLoop (rs.text2 ++ s) (httpFuel (rs.text2 ++ s)) rs.st2).2.2 then 3
          else 2,
        text2 := rs.text2 ++ s,
        st2 := (httpLoop (rs.text2 ++ s) (httpFuel (rs.text2 ++ s)) rs.st2).1,
        trace := rs.trace ++
          ((httpLoop (rs.text2 ++ s) (httpFuel (rs.text2 ++ s)) rs.st2).2.1).map
            (TraceEv.instrEv 2) }
    else rs

/-- Run the scenario over a list of network events. -/
def readRun (evs : List RWEvent) : ReadState :=
  evs.foldl readStep readInit

/-- Which request tag an event carries. -/
def tagIs (n : Nat) : TraceEv → Bool
  | .instrEv m _ => m = n
  | .marker => false

/-- Invariant of the two-request scenario: before the marker only
request-1 instructions are delivered; once the marker is processed, only
request-2 instructions follow it. -/
def readInv (rs : ReadState) : Prop :=
  (rs.phase = 1 ∧ ∀ e ∈ rs.trace, tagIs 1 e = true) ∨
    (rs.phase ≠ 1 ∧ ∃ xs ys, rs.trace = xs ++ TraceEv.marker :: ys ∧
      (∀ e ∈ xs, tagIs 1 e = true) ∧ (∀ e ∈ ys, tagIs 2 e = true))

theorem readInv_init : readInv readInit := by
  left
  constructor
  · rfl
  · intro e he
    simp [readInit] at he

theorem readInv_step (rs : ReadState) (ev : RWEvent) (h : readInv rs) :
    readInv (readStep rs ev) := by
  cases ev with
  | chunk1 s =>
    rcases h with ⟨h1, htr⟩ | ⟨h1, xs, ys, htr, hxs, hys⟩
    · by_cases hfin : (httpLoop (rs.text1 ++ s) (httpFuel (rs.text1 ++ s)) rs.st1).2.2 = true
      · right
        simp only [readStep]
        rw [if_pos h1, if_pos hfin]
        refine ⟨by split <;> simp, rs.trace ++
          ((httpLoop (rs.text1 ++ s) (httpFuel (rs.text1 ++ s)) rs.st1).2.1).map
            (TraceEv.instrEv 1),
          ((httpLoop rs.text2 (httpFuel rs.text2) hInit).2.1).map (TraceEv.instrEv 2),
          by simp, ?_, ?_⟩
        · intro e he
          rcases List.mem_append.1 he with he | he
          · exact htr e he
          · rcases List.mem_map.1 he with ⟨i, _, rfl⟩
            simp [tagIs]
        · intro e he
          rcases List.mem_map.1 he with ⟨i, _, rfl⟩
          simp [tagIs]
      · left
        simp only [readStep]
        rw [if_pos h1, if_neg hfin]
        refine ⟨h1, ?_⟩
        intro e he
        rcases List.mem_append.1 he with he | he
        · exact htr e he
        · rcases List.mem_map.1 he with ⟨i, _, rfl⟩
          simp [tagIs]
    · right
      simp only [readStep]
      rw [if_neg h1]
      exact ⟨h1, xs, ys, htr, hxs, hys⟩
  | chunk2 s =>
    rcases h with ⟨h1, htr⟩ | ⟨h1, xs, ys, htr, hxs, hys⟩
    · left
      simp only [readStep]
      rw [if_pos h1]
      exact ⟨h1, htr⟩
    · by_cases h2 : rs.phase = 2
      · right
        simp only [readStep]
        rw [if_neg h1, if_pos h2]
        refine ⟨by split <;> simp, xs,
          ys ++ ((httpLoop (rs.text2 ++ s) (httpFuel (rs.text2 ++ s)) rs.st2).2.1).map
            (TraceEv.instrEv 2),
          by rw [htr]; simp, hxs, ?_⟩
        intro e he
        rcases List.mem_append.1 he with he | he
        · exact hys e he
        · rcases List.mem_map.1 he with ⟨i, _, rfl⟩
          simp [tagIs]
      · right
        simp only [readStep]
        rw [if_neg h1, if_neg h2]
        exact ⟨h1, xs, ys, htr, hxs, hys⟩

theorem readInv_run (evs : List RWEvent) : readInv (readRun evs) := by
  have : ∀ (l : List RWEvent) (rs : ReadState), readInv rs → readInv (l.foldl readStep rs) := by
    intro l
    induction l with
    | nil => intro rs h; exact h
    | cons ev l ih =>
      intro rs h
      exact ih (readStep rs ev) (readInv_step rs ev h)
  exact this evs readInit readInv_init

/-! ## HTTP tunnel lifecycle (`Guacamole.HTTPTunnel`, Tunnel.js 251-800)

An event machine over the tunnel's observable state: the shared state
field, uuid, the two liveness timers (armed or not), the keep-alive ping
interval, the pending connect request, and the serialized write path
(`sendingMessages`, `outputMessageBuffer`, issued write payloads).
Timer events can only fire while the corresponding timer is armed, and
request-completion events only while such a request is outstanding. -/

/-- Observable callback invocations of the HTTP tunnel. -/
inductive HEv where
  | stateChange (s : TState)
  | uuidSet (u : JStr)
  | error (c : Code)
deriving DecidableEq, Repr

/-- The HTTP tunnel's state. -/
structure HState where
  ts : TState
  uuid : JSUuid
  receiveArmed : Bool
  unstableArmed : Bool
  pingOn : Bool
  connectPending : Bool
  sendingMessages : Bool
  buffer : JStr
  writePending : Bool
  writesSent : List JStr
  events : List HEv
deriving DecidableEq, Repr

/-- Tunnel state just after construction (Tunnel.js 107). -/
def hInitState : HState :=
  ⟨TState.Connecting, JSUuid.null, false, false, false, false, false, [], false, [], []⟩

/-- `setState` (Tunnel.js 66-75). -/
def hSetState (s : TState) (h : HState) : HState :=
  if s ≠ h.ts then { h with ts := s, events := h.events ++ [.stateChange s] } else h

/-- `reset_timeout` (Tunnel.js 364-384): clear and re-arm both timers;
an `UNSTABLE` tunnel returns to `OPEN`. -/
def hResetTimeout (h : HState) : HState :=
  { (if h.ts = TState.Unstable then hSetState TState.Open h else h) with
    receiveArmed := true
    unstableArmed := true }

/-- The timer/interval clearing at the top of `close_tunnel`
(Tunnel.js 397-402). -/
def hClearTimers (h : HState) : HState :=
  { h with
    receiveArmed := false
    unstableArmed := false
    pingOn := false }

/-- `close_tunnel(status)` (Tunnel.js 395-425): clear timers; ignore if
already closed; signal `onerror` on abnormal close except a
`RESOURCE_NOT_FOUND` after the tunnel connected; reset the write flag;
mark closed. -/
def hCloseTunnel (c : Code) (h : HState) : HState :=
  if (hClearTimers h).ts = TState.Closed then hClearTimers h
  else
    hSetState TState.Closed
      { (if c ≠ Code.success ∧
            ((hClearTimers h).ts = TState.Connecting ∨ c ≠ Code.resourceNotFound)
          then { hClearTimers h with events := (hClearTimers h).events ++ [.error c] }
          else hClearTimers h) with
        sendingMessages := false }

/-- `isConnected()` (Tunnel.js 97-100). -/
def hIsConnected (h : HState) : Prop :=
  h.ts = TState.Open ∨ h.ts = TState.Unstable

instance (h : HState) : Decidable (hIsConnected h) := by
  unfold hIsConnected
  infer_instance

/-- `sendPendingMessages` (Tunnel.js 473-514): issue the buffered output
as one write request, or go idle. -/
def hSendPendingMessages (h : HState) : HState :=
  if ¬ hIsConnected h then h
  else if 0 < h.buffer.length then
    { h with
      sendingMessages := true
      writePending := true
      writesSent := h.writesSent ++ [h.buffer]
      buffer := [] }
  else { h with sendingMessages := false }

/-- `sendMessage` (Tunnel.js 428-471): no-op unless connected and
nonempty; otherwise append the encoded message to the output buffer and
kick the writer if idle. -/
def hSendMessage (els : List JStr) (h : HState) : HState :=
  if ¬ hIsConnected h then h
  else if els.length = 0 then h
  else
    if ¬ h.sendingMessages then
      hSendPendingMessages { h with buffer := h.buffer ++ encodeMsg els }
    else { h with buffer := h.buffer ++ encodeMsg els }

/-- Events processed by the HTTP tunnel machine. -/
inductive HEvent where
  | connectCall                      -- `connect(data)` (742-794)
  | connectOk (u : JStr) (token : Bool)  -- connect request succeeded (752-786)
  | connectHttpFail (c : Code)       -- connect request failed (757-761)
  | unstableFire                     -- the instability timeout fired (380-383)
  | receiveFire                      -- the receive timeout fired (375-377)
  | disconnectCall                   -- `disconnect()` (796-798)
  | dataReceived                     -- response data arrived while connected (557-584)
  | sendMsg (els : List JStr)        -- `sendMessage(...)` (428-471)
  | pingFire                         -- the keep-alive interval fired (779-781)
  | writeDone (res : Option Code)    -- write completed; `none` = HTTP 200 (491-505)
deriving DecidableEq, Repr

/-- One step of the HTTP tunnel machine. -/
def hStep (h : HState) (ev : HEvent) : HState :=
  match ev with
  | .connectCall =>
    { (hSetState TState.Connecting (hResetTimeout h)) with connectPending := true }
  | .connectOk u token =>
    if h.connectPending then
      -- reset_timeout; setUUID; token check; open; start pings
      let h1 := hResetTimeout { h with connectPending := false }
      let h2 := { h1 with uuid := JSUuid.str u, events := h1.events ++ [.uuidSet u] }
      if ¬ token then hCloseTunnel Code.upstreamNotFound h2
      else { (hSetState TState.Open h2) with pingOn := true }
    else h
  | .connectHttpFail c =>
    if h.connectPending then hCloseTunnel c { h with connectPending := false } else h
  | .unstableFire =>
    if h.unstableArmed then hSetState TState.Unstable { h with unstableArmed := false } else h
  | .receiveFire =>
    if h.receiveArmed then hCloseTunnel Code.upstreamTimeout { h with receiveArmed := false }
    else h
  | .disconnectCall => hCloseTunnel Code.success h
  | .dataReceived => if hIsConnected h then hResetTimeout h else h
  | .sendMsg els => hSendMessage els h
  | .pingFire => if h.pingOn then hSendMessage ["nop".data] h else h
  | .writeDone res =>
    if h.writePending then
      match res with
      | some c => hCloseTunnel c (hResetTimeout { h with writePending := false })
      | none => hSendPendingMessages (hResetTimeout { h with writePending := false })
    else h

/-! ### State-field lemmas for the HTTP machine -/

theorem hSetState_ts (s : TState) (h : HState) : (hSetState s h).ts = s := by
  unfold hSetState
  split
  · rfl
  · next hne => exact (not_ne_iff.1 hne).symm

theorem hCloseTunnel_ts (c : Code) (h : HState) : (hCloseTunnel c h).ts = TState.Closed := by
  unfold hCloseTunnel
  split
  · next heq => exact heq
  · exact hSetState_ts _ _

theorem hResetTimeout_ts (h : HState) :
    (hResetTimeout h).ts = if h.ts = TState.Unstable then TState.Open else h.ts := by
  unfold hResetTimeout
  split
  · simp [hSetState_ts]
  · rfl

theorem hSendPendingMessages_ts (h : HState) : (hSendPendingMessages h).ts = h.ts := by
  unfold hSendPendingMessages
  split
  · rfl
  · split <;> rfl

theorem hSendMessage_ts (els : List JStr) (h : HState) :
    (hSendMessage els h).ts = h.ts := by
  unfold hSendMessage
  split
  · rfl
  · split
    · rfl
    · split
      · rw [hSendPendingMessages_ts]
      · rfl

/-! ## Failover tunnel (`Guacamole.ChainedTunnel`, Tunnel.js 1155-1326)

Candidate tunnels are identified by numbers.  Each candidate's callback
slots are either unset (`unwired`), wired to the chain's internal
wrapper handlers installed by `attach` (`wrapper`), or rewired by
`commit_tunnel` directly to the chain's public callbacks (`public`).
Wiring and per-tunnel uuid fields are kept in shadowing association
lists.  Events of the underlying tunnels reach the chain only through
whatever is wired at that moment. -/

/-- Callback wiring of one candidate tunnel. -/
inductive Wiring where
  | unwired
  | wrapper
  | public
deriving DecidableEq, Repr

/-- Invocations of the chain's own public callback slots. -/
inductive ChainEv where
  | stateChange (s : TState)
  | instr (op : JStr) (args : List JStr)
  | error (c : Code)
  | uuidSet (u : JStr)
deriving DecidableEq, Repr

/-- State of a `ChainedTunnel`. -/
structure Chain where
  queue : List Nat                      -- `tunnels` not yet tried
  committedTunnel : Option Nat          -- `committedTunnel`
  wirings : List (Nat × Wiring)         -- callback slots of each candidate
  uuids : List (Nat × JStr)             -- each candidate's own `uuid` field
  connectData : Option JStr             -- `connect_data`
  chainUuid : JSUuid                    -- the chain's own `uuid`
  events : List ChainEv
  connects : List (Nat × Option JStr)   -- `tunnel.connect(data)` calls issued
deriving DecidableEq, Repr

/-- Current wiring of candidate `i` (unset slots are `null`). -/
def wiringOf (c : Chain) (i : Nat) : Wiring :=
  (c.wirings.lookup i).getD Wiring.unwired

/-- Candidate `i`'s own `uuid` field (`null` if never assigned). -/
def uuidOf (c : Chain) (i : Nat) : Option JStr :=
  c.uuids.lookup i

/-- JavaScript truthiness of a tunnel's `uuid` field. -/
def uuidTruthy : Option JStr → Bool
  | some s => ¬ s.isEmpty
  | none => false

/-- `attach(tunnel)` (Tunnel.js 1197-1306): wire the candidate's
callback slots to the chain-internal wrappers and call its
`connect(connect_data)`. -/
def attach (i : Nat) (c : Chain) : Chain :=
  { c with
    wirings := (i, Wiring.wrapper) :: c.wirings
    connects := c.connects ++ [(i, c.connectData)] }

/-- `commit_tunnel()` (Tunnel.js 1245-1258): rewire the candidate's
slots to the chain's public callbacks, adopt its uuid if truthy, and
record it as committed. -/
def commit (i : Nat) (c : Chain) : Chain :=
  { (if uuidTruthy (uuidOf c i) then
      { c with
        wirings := (i, Wiring.public) :: c.wirings
        chainUuid := JSUuid.str ((uuidOf c i).getD [])
        events := c.events ++ [.uuidSet ((uuidOf c i).getD [])] }
    else { c with wirings := (i, Wiring.public) :: c.wirings }) with
    committedTunnel := some i }

/-- Whether `failTunnel(status)`'s status is the chain-fatal receive
timeout (Tunnel.js 1219). -/
def isTimeout : Option Code → Bool
  | some Code.upstreamTimeout => true
  | _ => false

/-- `failTunnel(status)` (Tunnel.js 1216-1237): on a timeout discard all
remaining candidates; otherwise dequeue the next candidate if any, clear
the failed tunnel's callbacks and attach the next one. -/
def failTunnel (i : Nat) (status : Option Code) (c : Chain) : Chain :=
  if isTimeout status then { c with queue := [] }
  else
    match c.queue with
    | [] => c
    | j :: rest =>
      attach j { c with queue := rest, wirings := (i, Wiring.unwired) :: c.wirings }

/-- Truthiness of `failTunnel`'s return value (the next tunnel, if
any). -/
def failHasNext (status : Option Code) (c : Chain) : Bool :=
  if isTimeout status then false else ¬ c.queue.isEmpty

/-- Events of the chained-tunnel scenario: a `connect` on the chain, or
a callback fired by one of the underlying tunnels. -/
inductive CEvent where
  | chainConnect (d : Option JStr)
  | tStateChange (i : Nat) (s : TState)
  | tInstruction (i : Nat) (op : JStr) (args : List JStr)
  | tError (i : Nat) (c : Code)
  | tSetUuid (i : Nat) (u : JStr)
deriving DecidableEq, Repr

/-- One step of the chained tunnel (Tunnel.js 1261-1324): the wrapper
handlers installed by `attach`, the public slots installed by
`commit_tunnel`, and `ChainedTunnel.connect`. -/
def cstep (c : Chain) (ev : CEvent) : Chain :=
  match ev with
  | .chainConnect d =>
    -- remember connect data; reuse the committed tunnel or shift the queue
    let c1 := { c with connectData := d }
    match c1.committedTunnel with
    | some t => attach t c1
    | none =>
      match c1.queue with
      | t :: rest => attach t { c1 with queue := rest }
      | [] => { c1 with events := c1.events ++ [.error Code.serverError] }
  | .tStateChange i s =>
    match wiringOf c i with
    | .unwired => c
    | .public => { c with events := c.events ++ [.stateChange s] }
    | .wrapper =>
      match s with
      | .Open =>
        { (commit i c) with events := (commit i c).events ++ [.stateChange TState.Open] }
      | .Closed =>
        if failHasNext none c then failTunnel i none c
        else { (failTunnel i none c) with
          events := (failTunnel i none c).events ++ [.stateChange TState.Closed] }
      | _ => c
  | .tInstruction i op args =>
    match wiringOf c i with
    | .unwired => c
    | .public => { c with events := c.events ++ [.instr op args] }
    | .wrapper =>
      { (commit i c) with events := (commit i c).events ++ [.instr op args] }
  | .tError i st =>
    match wiringOf c i with
    | .unwired => c
    | .public => { c with events := c.events ++ [.error st] }
    | .wrapper =>
      if failHasNext (some st) c then failTunnel i (some st) c
      else { (failTunnel i (some st) c) with
        events := (failTunnel i (some st) c).events ++ [.error st] }
  | .tSetUuid i u =>
    let c1 : Chain := { c with uuids := (i, u) :: c.uuids }
    match wiringOf c i with
    | .public => { c1 with events := c1.events ++ [.uuidSet u] }
    | _ => c1

/-! ## Replay tunnel (`Guacamole.StaticHTTPTunnel`, Tunnel.js 1350-1480) -/

/-- Modelled from the spec: `Guacamole.Parser` (the Codec used by the
Replay transport at Tunnel.js 1418) is not under `src/`.  Per §4.1 of
the specification it incrementally decodes the element stream
`length "." payload`, elements separated by `","`, instruction
terminated by `";"`, yielding each complete instruction in order (first
element = opcode); incomplete or malformed trailing data yields no
further instructions. -/
def parserDecode : Nat → JStr → List JStr → List Instr
  | 0, _, _ => []
  | fuel + 1, s, acc =>
    let d := s.takeWhile Char.isDigit
    if d.isEmpty then []
    else
      match s.drop d.length with
      | '.' :: r =>
        if r.length < digitsToNat d + 1 then []
        else
          match r.drop (digitsToNat d) with
          | ',' :: r2 => parserDecode fuel r2 (acc ++ [r.take (digitsToNat d)])
          | ';' :: r2 =>
            ((acc ++ [r.take (digitsToNat d)]).headD [],
              (acc ++ [r.take (digitsToNat d)]).tail) :: parserDecode fuel r2 []
          | _ => []
      | _ => []

/-- `instructionReceived` (Tunnel.js 1421-1424): the Replay transport's
`parser.oninstruction` handler forwards every parsed instruction to the
application's `oninstruction`, unconditionally. -/
def instructionReceived (i : Instr) (delivered : List Instr) : List Instr :=
  delivered ++ [i]

/-- Instructions delivered by the Replay transport for a dump: every
instruction the parser yields, passed through `instructionReceived`. -/
def staticRun (fuel : Nat) (dump : JStr) : List Instr :=
  (parserDecode fuel dump []).foldl (fun d i => instructionReceived i d) []

theorem foldl_instructionReceived (l acc : List Instr) :
    l.foldl (fun d i => instructionReceived i d) acc = acc ++ l := by
  induction l generalizing acc with
  | nil => simp
  | cons i l ih =>
    show List.foldl (fun d i => instructionReceived i d) (instructionReceived i acc) l = _
    rw [ih]
    simp [instructionReceived]

theorem staticRun_eq (fuel : Nat) (dump : JStr) :
    staticRun fuel dump = parserDecode fuel dump [] := by
  unfold staticRun
  rw [foldl_instructionReceived]
  simp

/-! ### Instruction events of the WebSocket tunnel -/

/-- The `oninstruction` invocations among a WebSocket event list. -/
def instrEvents (l : List WSEvent) : List Instr :=
  l.filterMap fun e =>
    match e with
    | .instr op args => some (op, args)
    | _ => none

theorem instrEvents_append (l₁ l₂ : List WSEvent) :
    instrEvents (l₁ ++ l₂) = instrEvents l₁ ++ instrEvents l₂ := by
  simp [instrEvents]

theorem instrEvents_setState (s : TState) (t : WSTunnel) :
    instrEvents (WSTunnel.setState s t).events = instrEvents t.events := by
  unfold WSTunnel.setState
  split
  · simp [instrEvents_append, instrEvents]
  · rfl

theorem instrEvents_close (c : Code) (t : WSTunnel) :
    instrEvents (WSTunnel.wsCloseCore c t).events = instrEvents t.events := by
  unfold WSTunnel.wsCloseCore
  split
  · rfl
  · split
    · rw [instrEvents_append]
      rw [show instrEvents ((WSTunnel.setState TState.Closed
          { t with events := t.events ++ [WSEvent.error c] }).events) =
        instrEvents ({ t with events := t.events ++ [WSEvent.error c] } : WSTunnel).events from
        instrEvents_setState _ _]
      simp [instrEvents_append, instrEvents]
    · rw [instrEvents_append, instrEvents_setState]
      simp [instrEvents]

theorem instrEvents_uuidStage (op : JStr) (args : List JStr) (t : WSTunnel) :
    instrEvents (wsUuidStage op args t).events = instrEvents t.events := by
  unfold wsUuidStage
  split
  · rw [instrEvents_setState]
    split
    · simp [instrEvents_append, instrEvents]
    · rfl
  · rfl

theorem instrEvents_gcStage (op : JStr) (t : WSTunnel) :
    instrEvents (wsGcStage op t).events = instrEvents t.events := by
  unfold wsGcStage
  split
  · simp [instrEvents_append, instrEvents]
  · rfl

theorem instrEvents_reauthStage (op : JStr) (t : WSTunnel) :
    instrEvents (wsReauthStage op t).events = instrEvents t.events := by
  unfold wsReauthStage
  split
  · show instrEvents ((WSTunnel.wsCloseCore Code.upstreamTimeout t).events ++ _) = _
    rw [instrEvents_append, instrEvents_close]
    simp [instrEvents]
  · rfl

theorem instrEvents_handle (op : JStr) (args : List JStr) (t : WSTunnel) (hop : op ≠ []) :
    instrEvents (wsHandleInstr op args t).events =
      instrEvents t.events ++ [(op, args)] := by
  unfold wsHandleInstr wsDispatchStage
  rw [if_pos (by simpa [internalOpcode] using hop)]
  show instrEvents (_ ++ [WSEvent.instr op args]) = _
  rw [instrEvents_append, instrEvents_reauthStage, instrEvents_gcStage,
    instrEvents_uuidStage]
  simp [instrEvents]

/-! ### No empty-opcode instruction is ever dispatched by `socket.onmessage` -/

theorem emptyInstr_setState (s : TState) (t : WSTunnel) (args : List JStr)
    (h : WSEvent.instr [] args ∈ (WSTunnel.setState s t).events) :
    WSEvent.instr [] args ∈ t.events := by
  unfold WSTunnel.setState at h
  split at h
  · simp only [List.mem_append, List.mem_singleton] at h
    rcases h with h | h
    · exact h
    · exact absurd h (by simp)
  · exact h

theorem emptyInstr_close (c : Code) (t : WSTunnel) (args : List JStr)
    (h : WSEvent.instr [] args ∈ (WSTunnel.wsCloseCore c t).events) :
    WSEvent.instr [] args ∈ t.events := by
  unfold WSTunnel.wsCloseCore at h
  split at h
  · exact h
  · dsimp only at h
    simp only [List.mem_append, List.mem_singleton] at h
    rcases h with h | h
    · have h1 := emptyInstr_setState TState.Closed _ args h
      split at h1
      · dsimp only at h1
        simp only [List.mem_append, List.mem_singleton] at h1
        rcases h1 with h1 | h1
        · exact h1
        · exact absurd h1 (by simp)
      · exact h1
    · exact absurd h (by simp)

theorem emptyInstr_uuidStage (op : JStr) (as : List JStr) (t : WSTunnel) (args : List JStr)
    (h : WSEvent.instr [] args ∈ (wsUuidStage op as t).events) :
    WSEvent.instr [] args ∈ t.events := by
  unfold wsUuidStage at h
  split at h
  · have h1 := emptyInstr_setState TState.Open _ args h
    split at h1
    · simp only [List.mem_append, List.mem_singleton] at h1
      rcases h1 with h1 | h1
      · exact h1
      · exact absurd h1 (by simp)
    · exact h1
  · exact h

theorem emptyInstr_gcStage (op : JStr) (t : WSTunnel) (args : List JStr)
    (h : WSEvent.instr [] args ∈ (wsGcStage op t).events) :
    WSEvent.instr [] args ∈ t.events := by
  unfold wsGcStage at h
  split at h
  · simp only [List.mem_append, List.mem_singleton] at h
    rcases h with h | h
    · exact h
    · exact absurd h (by simp)
  · exact h

theorem emptyInstr_reauthStage (op : JStr) (t : WSTunnel) (args : List JStr)
    (h : WSEvent.instr [] args ∈ (wsReauthStage op t).events) :
    WSEvent.instr [] args ∈ t.events := by
  unfold wsReauthStage at h
  split at h
  · simp only [List.mem_append, List.mem_cons, List.mem_singleton,
      List.not_mem_nil, or_false] at h
    rcases h with h | h | h
    · exact emptyInstr_close Code.upstreamTimeout t args (by simpa using h)
    · exact absurd h (by simp)
    · exact absurd h (by simp)
  · exact h

theorem emptyInstr_handle (op : JStr) (as : List JStr) (t : WSTunnel) (args : List JStr)
    (h : WSEvent.instr [] args ∈ (wsHandleInstr op as t).events) :
    WSEvent.instr [] args ∈ t.events := by
  unfold wsHandleInstr wsDispatchStage at h
  split at h
  · next hop =>
    dsimp only at h
    simp only [List.mem_append, List.mem_singleton] at h
    rcases h with h | h
    · exact emptyInstr_uuidStage op as t args
        (emptyInstr_gcStage op _ args (emptyInstr_reauthStage op _ args h))
    · injection h with h1 h2
      exact absurd h1.symm hop
  · exact emptyInstr_uuidStage op as t args
      (emptyInstr_gcStage op _ args (emptyInstr_reauthStage op _ args h))

theorem emptyInstr_afterBounds (msg : JStr) (a b : JNum) (elems : List JStr)
    (t : WSTunnel) (args : List JStr)
    (h : WSEvent.instr [] args ∈ (wsAfterBounds msg a b elems t).2.events) :
    WSEvent.instr [] args ∈ t.events := by
  unfold wsAfterBounds at h
  dsimp only at h
  split at h
  · exact emptyInstr_handle _ _ t args h
  · exact h

theorem emptyInstr_body (msg : JStr) (st : WSIter) (t : WSTunnel) (args : List JStr)
    (h : WSEvent.instr [] args ∈ (wsBody msg st t).2.events) :
    WSEvent.instr [] args ∈ t.events := by
  unfold wsBody at h
  split at h
  · exact emptyInstr_afterBounds _ _ _ _ t args h
  · exact emptyInstr_close Code.serverError t args (emptyInstr_afterBounds _ _ _ _ _ args h)

theorem emptyInstr_loop (msg : JStr) (fuel : Nat) (st : WSIter) (t : WSTunnel)
    (args : List JStr)
    (h : WSEvent.instr [] args ∈ (wsLoop msg fuel st t).events) :
    WSEvent.instr [] args ∈ t.events := by
  induction fuel generalizing st t with
  | zero => exact h
  | succ fuel ih =>
    unfold wsLoop at h
    split at h
    · exact emptyInstr_body msg st t args (ih _ _ h)
    · exact emptyInstr_body msg st t args h

theorem emptyInstr_onMessage (msg : JStr) (fuel : Nat) (t : WSTunnel) (args : List JStr)
    (h : WSEvent.instr [] args ∈ (wsOnMessage fuel msg t).events) :
    WSEvent.instr [] args ∈ t.events := by
  unfold wsOnMessage at h
  have h1 := emptyInstr_loop msg fuel _ _ args h
  unfold WSTunnel.wsResetTimeout at h1
  split at h1
  · exact emptyInstr_setState TState.Open t args h1
  · exact h1

/-! ## Claim theorems -/

/-- A freshly opened WebSocket tunnel with a known UUID. -/
def wsOpenBase : WSTunnel := ⟨TState.Open, JSUuid.str ['u'], true, []⟩

/-- Claim C1, counterexample: the instruction with opcode `"a"` and the
single empty-string argument encodes to `"1.a,0.;"`, but the HTTP read
decoder treats the zero-length element as the end-of-response marker:
it dispatches no instruction at all (and flags the response finished),
so the round trip fails for arguments that are empty strings. -/
theorem C1_counterexample :
    (httpLoop (encodeMsg [['a'], []]) 20 hInit).2.1 ≠ [((['a'] : JStr), [([] : JStr)])] ∧
    (httpLoop (encodeMsg [['a'], []]) 20 hInit).2.1 = [] ∧
    (httpLoop (encodeMsg [['a'], []]) 20 hInit).2.2 = true := by
  refine ⟨?_, ?_, ?_⟩ <;> decide

/-- Claim C1 (amended): encode-then-decode round-trip holds for every
opcode and argument list whose elements are all nonempty strings
(arbitrary content, including `,`, `.`, `;` and digits): the HTTP read
decoder dispatches exactly the original instruction without hitting the
end-of-response marker, and the WebSocket decoder dispatches exactly
the original instruction to `oninstruction`.  (A zero-length element is
reserved as the HTTP tunnel's end-of-response marker, so empty elements
are excluded; see the counterexample.) -/
theorem C1_encode_decode_roundtrip (op : JStr) (args : List JStr) (t : WSTunnel)
    (hop : op ≠ []) (hargs : ∀ x ∈ args, x ≠ []) (ht : t.state = TState.Open) :
    (httpLoop (encodeMsg (op :: args)) (args.length + 2) hInit).2.1 = [(op, args)] ∧
    (httpLoop (encodeMsg (op :: args)) (args.length + 2) hInit).2.2 = false ∧
    instrEvents (wsOnMessage (args.length + 1) (encodeMsg (op :: args)) t).events =
      instrEvents t.events ++ [(op, args)] := by
  refine ⟨?_, ?_, ?_⟩
  · rw [httpLoop_encode op args args.length hop hargs (by omega)]
  · rw [httpLoop_encode op args args.length hop hargs (by omega)]
  · rw [wsOnMessage_encode op args args.length t (le_refl _)]
    rw [show WSTunnel.wsResetTimeout t = t by
      unfold WSTunnel.wsResetTimeout
      rw [if_neg (by rw [ht]; decide)]]
    exact instrEvents_handle op args t hop

/-- Witness for C1 at a concrete instruction. -/
theorem C1_roundtrip_witness :
    (httpLoop (encodeMsg ["size".data :: ["1024".data, "768".data]].head!)
        ((["1024".data, "768".data] : List JStr).length + 2) hInit).2.1 =
      [("size".data, ["1024".data, "768".data])] ∧
    (httpLoop (encodeMsg ("size".data :: ["1024".data, "768".data]))
        ((["1024".data, "768".data] : List JStr).length + 2) hInit).2.2 = false ∧
    instrEvents (wsOnMessage ((["1024".data, "768".data] : List JStr).length + 1)
        (encodeMsg ("size".data :: ["1024".data, "768".data])) wsOpenBase).events =
      instrEvents wsOpenBase.events ++ [("size".data, ["1024".data, "768".data])] :=
  C1_encode_decode_roundtrip "size".data ["1024".data, "768".data] wsOpenBase
    (by decide) (by decide) rfl

/-- Claim C2 (confirmed): in the two-overlapping-read-request scenario
of the long-polling transport, for every interleaving of arriving
response chunks, the delivered trace is a block of request-1
instructions, then (if reached) the request-1 end-of-stream marker,
then only request-2 instructions — request-2 data is never delivered
before the marker of request 1 has been processed, so instructions
reach the application in wire framing order, never interleaved across
the request boundary. -/
theorem C2_longpolling_ordering (evs : List RWEvent) :
    ∃ xs ys, (readRun evs).trace = xs ++ ys ∧
      (∀ e ∈ xs, tagIs 1 e = true) ∧
      (ys = [] ∨ ∃ zs, ys = TraceEv.marker :: zs ∧ ∀ e ∈ zs, tagIs 2 e = true) := by
  rcases readInv_run evs with ⟨_, htr⟩ | ⟨_, xs, ys, htr, hxs, hys⟩
  · exact ⟨(readRun evs).trace, [], by simp, htr, Or.inl rfl⟩
  · exact ⟨xs, TraceEv.marker :: ys, by rw [htr], hxs, Or.inr ⟨ys, rfl, hys⟩⟩

/-- Claim C7, counterexample: the Replay (StaticHTTP) transport's
`instructionReceived` forwards every parsed instruction unconditionally
(Tunnel.js 1421-1424), so the empty-opcode instruction `0.,4.test;` IS
delivered to the application's `oninstruction` — the claimed isolation
fails for the Replay transport. -/
theorem C7_counterexample :
    (([] : JStr), [("test".data : JStr)]) ∈ staticRun 4 "0.,4.test;".data := by
  decide

/-- Claim C7 (amended): the Socket (WebSocket) transport never delivers
an empty-opcode instruction to `oninstruction` (any such event in the
result of `socket.onmessage` was already present beforehand), but the
Replay transport forwards every instruction the parser yields,
including empty-opcode ones, without any filtering. -/
theorem C7_internal_marker :
    (∀ (fuel : Nat) (msg : JStr) (t : WSTunnel) (args : List JStr),
       WSEvent.instr [] args ∈ (wsOnMessage fuel msg t).events →
       WSEvent.instr [] args ∈ t.events) ∧
    (∀ (fuel : Nat) (dump : JStr), staticRun fuel dump = parserDecode fuel dump []) :=
  ⟨fun fuel msg t args h => emptyInstr_onMessage msg fuel t args h,
   fun fuel dump => staticRun_eq fuel dump⟩

/-- Witness for C7 at a concrete frame and tunnel. -/
theorem C7_internal_marker_witness :
    WSEvent.instr [] [] ∈
      (⟨TState.Closed, JSUuid.null, true, [WSEvent.instr [] []]⟩ : WSTunnel).events :=
  C7_internal_marker.1 1 [] ⟨TState.Closed, JSUuid.null, true, [WSEvent.instr [] []]⟩ []
    (by decide)

/-- Claim C8, counterexample: the opcode `"reauth"` triggers
transport-level side effects in `socket.onmessage` (Tunnel.js
1109-1114): the tunnel is closed with `UPSTREAM_TIMEOUT`, an alert is
shown and the page is reloaded — decoding and dispatch are not
independent of the opcode's value. -/
theorem C8_counterexample :
    (wsOnMessage 2 (encodeMsg ["reauth".data]) wsOpenBase).events =
      [.error Code.upstreamTimeout, .stateChange TState.Closed, .socketClosed,
        .alertShown, .pageReload, .instr "reauth".data []] ∧
    (wsOnMessage 2 (encodeMsg ["reauth".data]) wsOpenBase).state = TState.Closed := by
  refine ⟨?_, ?_⟩ <;> decide

/-- Claim C8 (amended): for every opcode other than the internal empty
opcode, `"getCredentials"` and `"reauth"`, the Socket transport treats
the opcode as opaque: decoding an encoded instruction on an open tunnel
with a known UUID changes nothing except appending the single
`oninstruction` dispatch — no close, no DOM event, no reload, no state
change. -/
theorem C8_opcode_opacity (op : JStr) (args : List JStr) (t : WSTunnel)
    (h1 : op ≠ []) (h2 : op ≠ getCredentialsOp) (h3 : op ≠ reauthOp)
    (ht : t.state = TState.Open) (hu : t.uuid ≠ JSUuid.null) :
    wsOnMessage (args.length + 1) (encodeMsg (op :: args)) t =
      { t with events := t.events ++ [.instr op args] } := by
  rw [wsOnMessage_encode op args args.length t (le_refl _)]
  rw [show WSTunnel.wsResetTimeout t = t by
    unfold WSTunnel.wsResetTimeout
    rw [if_neg (by rw [ht]; decide)]]
  unfold wsHandleInstr wsUuidStage wsGcStage wsReauthStage wsDispatchStage
  rw [if_neg hu, if_neg h2, if_neg h3, if_pos (by simpa [internalOpcode] using h1)]

/-- Witness for C8 at a concrete opcode. -/
theorem C8_opcode_opacity_witness :
    wsOnMessage ((["1024".data] : List JStr).length + 1)
        (encodeMsg ("size".data :: ["1024".data])) wsOpenBase =
      { wsOpenBase with
        events := wsOpenBase.events ++ [.instr "size".data ["1024".data]] } :=
  C8_opcode_opacity "size".data ["1024".data] wsOpenBase
    (by decide) (by decide) (by decide) rfl (by decide)

/-- Claim C9, counterexample: on the frame `"4.test;junk"` the missing
length delimiter is detected and `SERVER_ERROR` is reported with the
tunnel closing, but parsing of the frame is NOT halted: the loop
re-extracts the stale `";"` element and delivers it as a spurious
instruction to the application (repeatedly — the real loop does not
terminate), so "no further elements of that frame are parsed or
delivered" is false. -/
theorem C9_counterexample :
    (wsOnMessage 3 "4.test;junk".data wsOpenBase).events =
      [.instr "test".data [], .error Code.serverError, .stateChange TState.Closed,
        .socketClosed, .instr [';'] [], .instr [';'] []] := by
  decide

/-- Claim C9 (amended): for every Socket frame containing no length
delimiter at all, the transport reports `SERVER_ERROR` through its
error path and closes, and no instruction of that frame is delivered;
when the delimiter is missing only after a complete instruction, the
error is still reported but a spurious stale element may additionally
be delivered (see the counterexample). -/
theorem C9_missing_delimiter (msg : JStr) (fuel : Nat) (t : WSTunnel)
    (hdot : '.' ∉ msg) (hst : t.state = TState.Open) :
    wsOnMessage (fuel + 1) msg t =
      { t with state := TState.Closed,
               events := t.events ++ [.error Code.serverError,
                 .stateChange TState.Closed, .socketClosed] } :=
  wsOnMessage_no_dot msg fuel t hdot hst

/-- Witness for C9 at a concrete malformed frame. -/
theorem C9_missing_delimiter_witness :
    wsOnMessage 1 "junk".data wsOpenBase =
      { wsOpenBase with
        state := TState.Closed
        events := wsOpenBase.events ++ [.error Code.serverError,
          .stateChange TState.Closed, .socketClosed] } :=
  C9_missing_delimiter "junk".data 0 wsOpenBase (by decide) rfl

/-- Run the HTTP tunnel machine from a fresh tunnel. -/
def runH (evs : List HEvent) : HState := evs.foldl hStep hInitState

/-- Claim C5, counterexample: the HTTP tunnel state machine violates
the claimed forward-only flow and terminal `Closed` state: (i) a second
`connect` call re-enters `Connecting` from `Closed`; (ii) the
instability timer can fire while still `Connecting`
(`Connecting → Unstable`); (iii) a write completing after closure
re-arms the timers, so the instability timer then moves
`Closed → Unstable`; (iv) a connect request completing after a
timeout closure re-opens the tunnel (`Closed → Open`). -/
theorem C5_counterexample :
    (runH [.connectCall, .disconnectCall]).ts = TState.Closed ∧
    (runH [.connectCall, .disconnectCall, .connectCall]).ts = TState.Connecting ∧
    (runH [.connectCall, .unstableFire]).ts = TState.Unstable ∧
    (runH [.connectCall, .connectOk ['u'] true, .sendMsg [['n']],
      .disconnectCall]).ts = TState.Closed ∧
    (runH [.connectCall, .connectOk ['u'] true, .sendMsg [['n']],
      .disconnectCall, .writeDone none, .unstableFire]).ts = TState.Unstable ∧
    (runH [.connectCall, .receiveFire]).ts = TState.Closed ∧
    (runH [.connectCall, .receiveFire, .connectOk ['u'] true]).ts = TState.Open := by
  refine ⟨?_, ?_, ?_, ?_, ?_, ?_, ?_⟩ <;> decide

/-- Claim C5 (amended): per step of the HTTP tunnel machine, (1) the
tunnel enters `Connecting` only through an explicit `connect` call, and
(2) `Closed` is left only through an explicit `connect` call, a stale
connect-success completion, or a stale instability-timer callback;
within a single connect attempt with no stale post-close callbacks the
flow is `Connecting → Open ⇄ Unstable → Closed`. -/
theorem C5_state_transitions :
    (∀ (h : HState) (ev : HEvent), (hStep h ev).ts = TState.Connecting →
       h.ts = TState.Connecting ∨ ev = HEvent.connectCall) ∧
    (∀ (h : HState) (ev : HEvent), h.ts = TState.Closed →
       (hStep h ev).ts = TState.Closed ∨ ev = HEvent.connectCall ∨
         (∃ u tk, ev = HEvent.connectOk u tk) ∨ ev = HEvent.unstableFire) := by
  constructor
  · intro h ev hts
    cases ev with
    | connectCall => exact Or.inr rfl
    | connectOk u tk =>
      left
      by_cases hp : h.connectPending
      · exfalso
        simp only [hStep, if_pos hp] at hts
        split at hts
        · rw [hCloseTunnel_ts] at hts
          exact absurd hts (by decide)
        · dsimp only at hts
          rw [hSetState_ts] at hts
          exact absurd hts (by decide)
      · simpa only [hStep, if_neg hp] using hts
    | connectHttpFail c =>
      left
      by_cases hp : h.connectPending
      · exfalso
        simp only [hStep, if_pos hp] at hts
        rw [hCloseTunnel_ts] at hts
        exact absurd hts (by decide)
      · simpa only [hStep, if_neg hp] using hts
    | unstableFire =>
      left
      by_cases ha : h.unstableArmed
      · exfalso
        simp only [hStep, if_pos ha] at hts
        rw [hSetState_ts] at hts
        exact absurd hts (by decide)
      · simpa only [hStep, if_neg ha] using hts
    | receiveFire =>
      left
      by_cases ha : h.receiveArmed
      · exfalso
        simp only [hStep, if_pos ha] at hts
        rw [hCloseTunnel_ts] at hts
        exact absurd hts (by decide)
      · simpa only [hStep, if_neg ha] using hts
    | disconnectCall =>
      exfalso
      simp only [hStep] at hts
      rw [hCloseTunnel_ts] at hts
      exact absurd hts (by decide)
    | dataReceived =>
      left
      by_cases hc : hIsConnected h
      · exfalso
        simp only [hStep, if_pos hc] at hts
        rw [hResetTimeout_ts] at hts
        rcases hc with hc | hc <;> rw [hc] at hts <;> simp_all
      · simpa only [hStep, if_neg hc] using hts
    | sendMsg els =>
      left
      simp only [hStep] at hts
      rw [hSendMessage_ts] at hts
      exact hts
    | pingFire =>
      left
      by_cases hp : h.pingOn
      · simp only [hStep, if_pos hp] at hts
        rw [hSendMessage_ts] at hts
        exact hts
      · simpa only [hStep, if_neg hp] using hts
    | writeDone res =>
      left
      by_cases hw : h.writePending
      · simp only [hStep, if_pos hw] at hts
        cases res with
        | some c =>
          simp only at hts
          rw [hCloseTunnel_ts] at hts
          exact False.elim (absurd hts (by decide))
        | none =>
          simp only at hts
          rw [hSendPendingMessages_ts, hResetTimeout_ts] at hts
          split at hts
          · exact False.elim (absurd hts (by decide))
          · exact hts
      · simpa only [hStep, if_neg hw] using hts
  · intro h ev hcl
    cases ev with
    | connectCall => exact Or.inr (Or.inl rfl)
    | connectOk u tk => exact Or.inr (Or.inr (Or.inl ⟨u, tk, rfl⟩))
    | unstableFire => exact Or.inr (Or.inr (Or.inr rfl))
    | connectHttpFail c =>
      left
      by_cases hp : h.connectPending
      · simp only [hStep, if_pos hp]
        exact hCloseTunnel_ts _ _
      · simpa only [hStep, if_neg hp] using hcl
    | receiveFire =>
      left
      by_cases ha : h.receiveArmed
      · simp only [hStep, if_pos ha]
        exact hCloseTunnel_ts _ _
      · simpa only [hStep, if_neg ha] using hcl
    | disconnectCall =>
      left
      simp only [hStep]
      exact hCloseTunnel_ts _ _
    | dataReceived =>
      left
      by_cases hc : hIsConnected h
      · exact absurd hcl (by rcases hc with hc | hc <;> rw [hc] <;> decide)
      · simpa only [hStep, if_neg hc] using hcl
    | sendMsg els =>
      left
      simp only [hStep]
      rw [hSendMessage_ts]
      exact hcl
    | pingFire =>
      left
      by_cases hp : h.pingOn
      · simp only [hStep, if_pos hp]
        rw [hSendMessage_ts]
        exact hcl
      · simpa only [hStep, if_neg hp] using hcl
    | writeDone res =>
      left
      by_cases hw : h.writePending
      · simp only [hStep, if_pos hw]
        cases res with
        | some c => exact hCloseTunnel_ts _ _
        | none =>
          simp only
          rw [hSendPendingMessages_ts, hResetTimeout_ts]
          simp [hcl]
      · simpa only [hStep, if_neg hw] using hcl

/-- Witness for C5 at concrete steps. -/
theorem C5_state_transitions_witness :
    (hInitState.ts = TState.Connecting ∨ HEvent.connectCall = HEvent.connectCall) ∧
    ((hStep (runH [.connectCall, .disconnectCall]) .dataReceived).ts = TState.Closed ∨
      HEvent.dataReceived = HEvent.connectCall ∨
      (∃ u tk, HEvent.dataReceived = HEvent.connectOk u tk) ∨
      HEvent.dataReceived = HEvent.unstableFire) :=
  ⟨C5_state_transitions.1 hInitState HEvent.connectCall (by decide),
   C5_state_transitions.2 (runH [.connectCall, .disconnectCall]) .dataReceived (by decide)⟩

/-- An encoded message is never the empty string. -/
theorem encodeMsg_ne_nil (e : JStr) (r : List JStr) : encodeMsg (e :: r) ≠ [] := by
  show getElement e ++ encodeRest r ≠ []
  unfold getElement
  simp

/-- Claim C6, counterexample: calling `disconnect` on a WebSocket
tunnel before `connect` has ever been called dereferences the `null`
`socket` variable (`socket.close()`, Tunnel.js 967) and throws — the
claimed "safe at any state, including before connect" fails for the
WebSocket transport. -/
theorem C6_counterexample :
    WSTunnel.wsDisconnect ⟨TState.Connecting, JSUuid.null, false, []⟩ = none := by
  decide

/-- Claim C6 (amended): teardown is idempotent: for the HTTP transport
at any state, and for the WebSocket transport once `connect` has
created the socket, the first effective `disconnect` produces exactly
one `Closed` state-change event and no error callback, and a second
`disconnect` changes nothing and produces no further events.  (Calling
WebSocket `disconnect` before `connect` faults on the absent socket;
see the counterexample.) -/
theorem C6_teardown_idempotent :
    (∀ h : HState,
       (hStep h .disconnectCall).events =
         h.events ++ (if h.ts = TState.Closed then [] else [.stateChange TState.Closed]) ∧
       hStep (hStep h .disconnectCall) .disconnectCall = hStep h .disconnectCall) ∧
    (∀ t : WSTunnel, t.socketOpen = true →
       ∃ t', WSTunnel.wsDisconnect t = some t' ∧
         t'.events = t.events ++ (if t.state = TState.Closed then []
           else [.stateChange TState.Closed, .socketClosed]) ∧
         WSTunnel.wsDisconnect t' = some t') := by
  constructor
  · intro h
    by_cases hcl : h.ts = TState.Closed
    · constructor
      · simp [hStep, hCloseTunnel, hClearTimers, hcl]
      · simp [hStep, hCloseTunnel, hClearTimers, hcl]
    · have hcl' : ¬ (TState.Closed = h.ts) := fun hh => hcl hh.symm
      constructor
      · simp [hStep, hCloseTunnel, hClearTimers, hSetState, hcl, hcl']
      · simp [hStep, hCloseTunnel, hClearTimers, hSetState, hcl, hcl']
  · intro t hso
    by_cases hcl : t.state = TState.Closed
    · exact ⟨t, by simp [WSTunnel.wsDisconnect, hcl], by simp [hcl], by
        simp [WSTunnel.wsDisconnect, hcl]⟩
    · have hcl' : ¬ (TState.Closed = t.state) := fun hh => hcl hh.symm
      refine ⟨WSTunnel.wsCloseCore Code.success t, ?_, ?_, ?_⟩
      · simp [WSTunnel.wsDisconnect, hcl, hso]
      · simp [WSTunnel.wsCloseCore, WSTunnel.setState, hcl, hcl']
      · have hc : (WSTunnel.wsCloseCore Code.success t).state = TState.Closed := by
          simp [WSTunnel.wsCloseCore, WSTunnel.setState, hcl, hcl']
        simp [WSTunnel.wsDisconnect, hc]

/-- Witness for C6 at a concrete tunnel state. -/
theorem C6_teardown_idempotent_witness :
    ((hStep hInitState .disconnectCall).events =
      hInitState.events ++ (if hInitState.ts = TState.Closed then []
        else [.stateChange TState.Closed]) ∧
     hStep (hStep hInitState .disconnectCall) .disconnectCall =
       hStep hInitState .disconnectCall) ∧
    (∃ t', WSTunnel.wsDisconnect wsOpenBase = some t' ∧
      t'.events = wsOpenBase.events ++ (if wsOpenBase.state = TState.Closed then []
        else [.stateChange TState.Closed, .socketClosed]) ∧
      WSTunnel.wsDisconnect t' = some t') :=
  ⟨C6_teardown_idempotent.1 hInitState, C6_teardown_idempotent.2 wsOpenBase rfl⟩

/-- Claim C10 (confirmed): `sendMessage` on the HTTP and WebSocket
transports is a strict no-op (state unchanged, nothing sent or
buffered, no error) while the tunnel is `Connecting` or `Closed`, or
when called with zero elements; and sending does proceed while `Open`
or `Unstable`: the encoded message is appended to the output buffer
(HTTP, write in flight), issued as a write carrying the buffered output
(HTTP, writer idle), or sent whole on the socket (WebSocket). -/
theorem C10_sendMessage_preconditions :
    (∀ (h : HState) (els : List JStr),
       h.ts = TState.Connecting ∨ h.ts = TState.Closed → hStep h (.sendMsg els) = h) ∧
    (∀ h : HState, hStep h (.sendMsg []) = h) ∧
    (∀ (h : HState) (e : JStr) (r : List JStr),
       h.ts = TState.Open ∨ h.ts = TState.Unstable →
       (h.sendingMessages = true →
          hStep h (.sendMsg (e :: r)) =
            { h with buffer := h.buffer ++ encodeMsg (e :: r) }) ∧
       (h.sendingMessages = false →
          hStep h (.sendMsg (e :: r)) =
            { h with
              sendingMessages := true
              writePending := true
              writesSent := h.writesSent ++ [h.buffer ++ encodeMsg (e :: r)]
              buffer := [] })) ∧
    (∀ (t : WSTunnel) (els : List JStr),
       t.state = TState.Connecting ∨ t.state = TState.Closed →
       WSTunnel.wsSendMessage els t = t) ∧
    (∀ t : WSTunnel, WSTunnel.wsSendMessage [] t = t) ∧
    (∀ (t : WSTunnel) (e : JStr) (r : List JStr),
       t.state = TState.Open ∨ t.state = TState.Unstable →
       WSTunnel.wsSendMessage (e :: r) t =
         { t with events := t.events ++ [.sent (encodeMsg (e :: r))] }) := by
  refine ⟨?_, ?_, ?_, ?_, ?_, ?_⟩
  · intro h els hst
    have : ¬ hIsConnected h := by
      rcases hst with hst | hst <;> simp [hIsConnected, hst]
    simp [hStep, hSendMessage, this]
  · intro h
    by_cases hc : hIsConnected h
    · simp [hStep, hSendMessage, hc]
    · simp [hStep, hSendMessage, hc]
  · intro h e r hst
    have hc : hIsConnected h := by
      rcases hst with hst | hst
      · exact Or.inl hst
      · exact Or.inr hst
    constructor
    · intro hsm
      simp [hStep, hSendMessage, hc, hsm]
    · intro hsm
      have hemsg : 0 < (encodeMsg (e :: r)).length := by
        have hne := encodeMsg_ne_nil e r
        cases hh : encodeMsg (e :: r) with
        | nil => exact absurd hh hne
        | cons a l => simp
      rcases hst with hst | hst <;>
        simp [hStep, hSendMessage, hSendPendingMessages, hIsConnected, hsm, hst, hemsg]
  · intro t els hst
    have : ¬ (t.state = TState.Open ∨ t.state = TState.Unstable) := by
      rcases hst with hst | hst <;> simp [hst]
    simp [WSTunnel.wsSendMessage, this]
  · intro t
    by_cases hc : t.state = TState.Open ∨ t.state = TState.Unstable
    · simp [WSTunnel.wsSendMessage, hc]
    · simp [WSTunnel.wsSendMessage, hc]
  · intro t e r hst
    simp [WSTunnel.wsSendMessage, hst]

/-- Witness for C10 at concrete tunnel states. -/
theorem C10_sendMessage_witness :
    hStep hInitState (.sendMsg [['n'], ['o']]) = hInitState ∧
    WSTunnel.wsSendMessage [['n']] wsOpenBase =
      { wsOpenBase with events := wsOpenBase.events ++ [.sent (encodeMsg [['n']])] } :=
  ⟨C10_sendMessage_preconditions.1 hInitState [['n'], ['o']] (Or.inl rfl),
   C10_sendMessage_preconditions.2.2.2.2.2 wsOpenBase ['n'] [] (Or.inl rfl)⟩

/-- A chain state with one attached, uncommitted candidate (tunnel 1)
whose own uuid is already set, and two spare candidates. -/
def cWrapBase : Chain :=
  ⟨[2, 3], none, [(1, Wiring.wrapper)], [(1, ['u'])], some ['d'], JSUuid.null, [], []⟩

/-- A chain state whose candidate 1 is committed (slots rewired to the
chain's public callbacks). -/
def cPubBase : Chain :=
  ⟨[], some 1, [(1, Wiring.public)], [(1, ['u'])], some ['d'], JSUuid.null, [], []⟩

/-- Claim C3 (confirmed): the failover commit rule.  (1) The instant an
attached, uncommitted candidate (wired to the chain's wrapper handlers)
reaches `Open` or delivers its first instruction, it becomes the
committed transport: `committedTunnel` records it, its slots are
rewired to the chain's public callbacks, its truthy uuid is adopted by
the chain, and the triggering instruction is still delivered.  (2) Once
a candidate's slots are public, a later `Closed` on it is forwarded to
the chain and never attaches another candidate (queue, connects and
`committedTunnel` untouched).  (3) A subsequent `connect` on the chain
reuses the committed tunnel directly, without consulting the candidate
queue. -/
theorem C3_commit_rule :
    (∀ (c : Chain) (i : Nat), wiringOf c i = Wiring.wrapper →
       ((cstep c (.tStateChange i TState.Open)).committedTunnel = some i ∧
        wiringOf (cstep c (.tStateChange i TState.Open)) i = Wiring.public ∧
        (uuidTruthy (uuidOf c i) = true →
          (cstep c (.tStateChange i TState.Open)).chainUuid =
            JSUuid.str ((uuidOf c i).getD []))) ∧
       (∀ (op : JStr) (args : List JStr),
          (cstep c (.tInstruction i op args)).committedTunnel = some i ∧
          wiringOf (cstep c (.tInstruction i op args)) i = Wiring.public ∧
          (cstep c (.tInstruction i op args)).events =
            c.events ++
              (if uuidTruthy (uuidOf c i) then [ChainEv.uuidSet ((uuidOf c i).getD [])]
               else []) ++ [ChainEv.instr op args])) ∧
    (∀ (c : Chain) (i : Nat), wiringOf c i = Wiring.public →
       (cstep c (.tStateChange i TState.Closed)).connects = c.connects ∧
       (cstep c (.tStateChange i TState.Closed)).queue = c.queue ∧
       (cstep c (.tStateChange i TState.Closed)).committedTunnel = c.committedTunnel ∧
       (cstep c (.tStateChange i TState.Closed)).events =
         c.events ++ [ChainEv.stateChange TState.Closed]) ∧
    (∀ (c : Chain) (t : Nat) (d : Option JStr), c.committedTunnel = some t →
       cstep c (.chainConnect d) = attach t { c with connectData := d }) := by
  refine ⟨?_, ?_, ?_⟩
  · intro c i hw
    refine ⟨⟨?_, ?_, ?_⟩, ?_⟩
    · by_cases ht : uuidTruthy (uuidOf c i) <;>
        simp [cstep, hw, commit, ht]
    · have hstep : cstep c (.tStateChange i TState.Open) =
          { (commit i c) with
            events := (commit i c).events ++ [ChainEv.stateChange TState.Open] } := by
        simp [cstep, hw]
      rw [hstep]
      by_cases ht : uuidTruthy (uuidOf c i) <;>
        simp [wiringOf, commit, ht, List.lookup]
    · intro ht
      simp [cstep, hw, commit, ht]
    · intro op args
      refine ⟨?_, ?_, ?_⟩
      · by_cases ht : uuidTruthy (uuidOf c i) <;>
          simp [cstep, hw, commit, ht]
      · have hstep : cstep c (.tInstruction i op args) =
            { (commit i c) with
              events := (commit i c).events ++ [ChainEv.instr op args] } := by
          simp [cstep, hw]
        rw [hstep]
        by_cases ht : uuidTruthy (uuidOf c i) <;>
          simp [wiringOf, commit, ht, List.lookup]
      · by_cases ht : uuidTruthy (uuidOf c i) <;>
          simp [cstep, hw, commit, ht]
  · intro c i hw
    refine ⟨?_, ?_, ?_, ?_⟩ <;> simp [cstep, hw]
  · intro c t d hct
    simp [cstep, hct]

/-- Witness for C3 at concrete chain states. -/
theorem C3_commit_rule_witness :
    ((cstep cWrapBase (.tInstruction 1 ['s', 'y', 'n', 'c'] [])).committedTunnel = some 1 ∧
     wiringOf (cstep cWrapBase (.tInstruction 1 ['s', 'y', 'n', 'c'] [])) 1 = Wiring.public ∧
     (cstep cWrapBase (.tInstruction 1 ['s', 'y', 'n', 'c'] [])).events =
       cWrapBase.events ++
         (if uuidTruthy (uuidOf cWrapBase 1) then [ChainEv.uuidSet ((uuidOf cWrapBase 1).getD [])]
          else []) ++ [ChainEv.instr ['s', 'y', 'n', 'c'] []]) ∧
    (cstep cPubBase (.tStateChange 1 TState.Closed)).connects = cPubBase.connects ∧
    cstep cPubBase (.chainConnect (some ['e'])) =
      attach 1 { cPubBase with connectData := some ['e'] } :=
  ⟨(C3_commit_rule.1 cWrapBase 1 (by decide)).2 ['s', 'y', 'n', 'c'] [],
   ((C3_commit_rule.2.1 cPubBase 1 (by decide)).1),
   C3_commit_rule.2.2 cPubBase 1 (some ['e']) rfl⟩

/-- Claim C4 (confirmed): failover timeout fatality.  If an attached,
uncommitted candidate errors with `UPSTREAM_TIMEOUT`, the whole
remaining candidate queue is discarded, no further candidate is
attached (no new `connect` issued, wirings untouched), and the error is
surfaced through the chain's own error callback.  For any other status,
when a next candidate `j` remains queued, the failed tunnel's slots are
cleared and `j` is attached with the stored connect payload; no chain
error fires. -/
theorem C4_timeout_fatality :
    (∀ (c : Chain) (i : Nat) (st : Code), wiringOf c i = Wiring.wrapper →
       st = Code.upstreamTimeout →
       (cstep c (.tError i st)).queue = [] ∧
       (cstep c (.tError i st)).connects = c.connects ∧
       (cstep c (.tError i st)).wirings = c.wirings ∧
       (cstep c (.tError i st)).events = c.events ++ [ChainEv.error st]) ∧
    (∀ (c : Chain) (i : Nat) (st : Code) (j : Nat) (rest : List Nat),
       wiringOf c i = Wiring.wrapper → st ≠ Code.upstreamTimeout →
       c.queue = j :: rest →
       cstep c (.tError i st) =
         attach j { c with queue := rest, wirings := (i, Wiring.unwired) :: c.wirings } ∧
       (cstep c (.tError i st)).connects = c.connects ++ [(j, c.connectData)] ∧
       (cstep c (.tError i st)).events = c.events) := by
  constructor
  · intro c i st hw hst
    subst hst
    refine ⟨?_, ?_, ?_, ?_⟩ <;>
      simp [cstep, hw, failHasNext, failTunnel, isTimeout]
  · intro c i st j rest hw hst hq
    have hto : isTimeout (some st) = false := by
      cases st <;> first | rfl | exact absurd rfl hst
    refine ⟨?_, ?_, ?_⟩ <;>
      simp [cstep, hw, failHasNext, failTunnel, hto, hq, attach]

/-- Witness for C4 at a concrete chain state. -/
theorem C4_timeout_fatality_witness :
    ((cstep cWrapBase (.tError 1 Code.upstreamTimeout)).queue = [] ∧
     (cstep cWrapBase (.tError 1 Code.upstreamTimeout)).connects = cWrapBase.connects ∧
     (cstep cWrapBase (.tError 1 Code.upstreamTimeout)).events =
       cWrapBase.events ++ [ChainEv.error Code.upstreamTimeout]) ∧
    (cstep cWrapBase (.tError 1 Code.serverError) =
       attach 2 { cWrapBase with
         queue := [3], wirings := (1, Wiring.unwired) :: cWrapBase.wirings } ∧
     (cstep cWrapBase (.tError 1 Code.serverError)).connects =
       cWrapBase.connects ++ [(2, cWrapBase.connectData)]) :=
  ⟨⟨(C4_timeout_fatality.1 cWrapBase 1 Code.upstreamTimeout (by decide) rfl).1,
    (C4_timeout_fatality.1 cWrapBase 1 Code.upstreamTimeout (by decide) rfl).2.1,
    (C4_timeout_fatality.1 cWrapBase 1 Code.upstreamTimeout (by decide) rfl).2.2.2⟩,
   ⟨(C4_timeout_fatality.2 cWrapBase 1 Code.serverError 2 [3] (by decide) (by decide) rfl).1,
    (C4_timeout_fatality.2 cWrapBase 1 Code.serverError 2 [3] (by decide) (by decide) rfl).2.1⟩⟩
